import Mathlib

/-!
# Tetris engine (tetris.h / tetris.cpp): shallow embedding and verified properties

Modelling conventions.

* C++ `int` is modelled by `Int`; the development covers executions without signed
  overflow (which is undefined behaviour in C++ and has no wrap-around meaning).
  Division and remainder are the truncating `Int.tdiv` / `Int.tmod` of C++.
* Every operation that indexes a `std::vector` or the shape table returns an `Option`;
  `none` stands for an out-of-range access (undefined behaviour in the source) or for a
  vector constructed with a negative length.
* `rand()` is an input: the three successive draws of `Game::newPiece` are the fields of `Rand`.
* The `debug` out-parameter of `Game::update` is write-only logging and is not modelled.
-/

namespace Tetris

/-! ## tetris.h : data model -/

/-- Struct `Coord` of tetris.h. -/
structure Coord where
  x : Int
  y : Int
deriving DecidableEq, Repr

/-- Method `Coord::operator+=` (and `operator+`): componentwise sum. -/
def Coord.add (a b : Coord) : Coord := ⟨a.x + b.x, a.y + b.y⟩

/-- Type `arr_4 = array<Coord, 4>`. -/
structure arr_4 where
  c0 : Coord
  c1 : Coord
  c2 : Coord
  c3 : Coord
deriving DecidableEq, Repr

/-- The four elements in iteration order (`for (auto& c : coords)`). -/
def arr_4.toList (a : arr_4) : List Coord := [a.c0, a.c1, a.c2, a.c3]

/-- Apply a function to each of the four elements, in place. -/
def arr_4.map (f : Coord → Coord) (a : arr_4) : arr_4 := ⟨f a.c0, f a.c1, f a.c2, f a.c3⟩

/-- Enum `Action`. -/
inductive Action where
  | DOWN
  | LEFT
  | RIGHT
  | ROTATE
deriving DecidableEq, Repr

/-- Enum `PieceType` (the sentinel `NUM_SHAPES` is the constant below). -/
inductive PieceType where
  | SHAPE_I
  | SHAPE_L
  | SHAPE_L_M
  | SHAPE_O
  | SHAPE_S
  | SHAPE_S_M
  | SHAPE_T
deriving DecidableEq, Repr

def NUM_SHAPES : Nat := 7

/-- Type `Orientation = int`. -/
abbrev Orientation := Int

def NUM_ORIENTATIONS : Int := 4

/-- Enum `Color`; `EMPTY` has the value `NUM_COLORS`. -/
inductive Color where
  | RED
  | GREEN
  | BLUE
  | MAGENTA
  | CYAN
  | YELLOW
  | EMPTY
deriving DecidableEq, Repr

def NUM_COLORS : Nat := 6

/-- The cast `static_cast<PieceType>(n)` for `n < NUM_SHAPES`. -/
def PieceType.static_cast : Nat → PieceType
  | 0 => .SHAPE_I
  | 1 => .SHAPE_L
  | 2 => .SHAPE_L_M
  | 3 => .SHAPE_O
  | 4 => .SHAPE_S
  | 5 => .SHAPE_S_M
  | _ => .SHAPE_T

/-- The cast `static_cast<Color>(n)` for `n <= NUM_COLORS`. -/
def Color.static_cast : Nat → Color
  | 0 => .RED
  | 1 => .GREEN
  | 2 => .BLUE
  | 3 => .MAGENTA
  | 4 => .CYAN
  | 5 => .YELLOW
  | _ => .EMPTY

/-! ## tetris.cpp : shape table and piece -/

/-- Table `coord_map[type]`: the four orientations of each piece type. -/
def coord_map : PieceType → List arr_4
  | .SHAPE_I =>
    [ ⟨⟨-1, -1⟩, ⟨0, -1⟩, ⟨1, -1⟩, ⟨2, -1⟩⟩,
      ⟨⟨0, -3⟩, ⟨0, -2⟩, ⟨0, -1⟩, ⟨0, 0⟩⟩,
      ⟨⟨-1, -1⟩, ⟨0, -1⟩, ⟨1, -1⟩, ⟨2, -1⟩⟩,
      ⟨⟨0, -3⟩, ⟨0, -2⟩, ⟨0, -1⟩, ⟨0, 0⟩⟩ ]
  | .SHAPE_L =>
    [ ⟨⟨0, -2⟩, ⟨0, -1⟩, ⟨0, 0⟩, ⟨1, 0⟩⟩,
      ⟨⟨-1, -1⟩, ⟨0, -1⟩, ⟨1, -1⟩, ⟨-1, 0⟩⟩,
      ⟨⟨0, -2⟩, ⟨1, -2⟩, ⟨1, -1⟩, ⟨1, 0⟩⟩,
      ⟨⟨1, -1⟩, ⟨-1, 0⟩, ⟨0, 0⟩, ⟨1, 0⟩⟩ ]
  | .SHAPE_L_M =>
    [ ⟨⟨1, -2⟩, ⟨1, -1⟩, ⟨0, 0⟩, ⟨1, 0⟩⟩,
      ⟨⟨-1, -1⟩, ⟨-1, 0⟩, ⟨0, 0⟩, ⟨1, 0⟩⟩,
      ⟨⟨0, -2⟩, ⟨1, -2⟩, ⟨0, -1⟩, ⟨0, 0⟩⟩,
      ⟨⟨-1, -1⟩, ⟨0, -1⟩, ⟨1, -1⟩, ⟨1, 0⟩⟩ ]
  | .SHAPE_O =>
    [ ⟨⟨0, -1⟩, ⟨1, -1⟩, ⟨0, 0⟩, ⟨1, 0⟩⟩,
      ⟨⟨0, -1⟩, ⟨1, -1⟩, ⟨0, 0⟩, ⟨1, 0⟩⟩,
      ⟨⟨0, -1⟩, ⟨1, -1⟩, ⟨0, 0⟩, ⟨1, 0⟩⟩,
      ⟨⟨0, -1⟩, ⟨1, -1⟩, ⟨0, 0⟩, ⟨1, 0⟩⟩ ]
  | .SHAPE_S =>
    [ ⟨⟨0, -1⟩, ⟨1, -1⟩, ⟨-1, 0⟩, ⟨0, 0⟩⟩,
      ⟨⟨0, -2⟩, ⟨0, -1⟩, ⟨1, -1⟩, ⟨1, 0⟩⟩,
      ⟨⟨0, -1⟩, ⟨1, -1⟩, ⟨-1, 0⟩, ⟨0, 0⟩⟩,
      ⟨⟨0, -2⟩, ⟨0, -1⟩, ⟨1, -1⟩, ⟨1, 0⟩⟩ ]
  | .SHAPE_S_M =>
    [ ⟨⟨-1, -1⟩, ⟨0, -1⟩, ⟨0, 0⟩, ⟨1, 0⟩⟩,
      ⟨⟨1, -2⟩, ⟨0, -1⟩, ⟨1, -1⟩, ⟨0, 0⟩⟩,
      ⟨⟨-1, -1⟩, ⟨0, -1⟩, ⟨0, 0⟩, ⟨1, 0⟩⟩,
      ⟨⟨1, -2⟩, ⟨0, -1⟩, ⟨1, -1⟩, ⟨0, 0⟩⟩ ]
  | .SHAPE_T =>
    [ ⟨⟨0, -1⟩, ⟨-1, 0⟩, ⟨0, 0⟩, ⟨1, 0⟩⟩,
      ⟨⟨-1, -2⟩, ⟨-1, -1⟩, ⟨0, -1⟩, ⟨-1, 0⟩⟩,
      ⟨⟨-1, -1⟩, ⟨0, -1⟩, ⟨1, -1⟩, ⟨0, 0⟩⟩,
      ⟨⟨1, -2⟩, ⟨0, -1⟩, ⟨1, -1⟩, ⟨1, 0⟩⟩ ]

/-- The lookup `coord_map[type][orientation]`; `none` when the orientation is not an index
of the inner array. -/
def coord_map_at (type : PieceType) (orientation : Orientation) : Option arr_4 :=
  if orientation < 0 then none else (coord_map type)[orientation.toNat]?

/-- Free function `update(Coord&, Orientation&, Action)`: the new pivot and orientation. -/
def update (c : Coord) (o : Orientation) (action : Action) : Coord × Orientation :=
  match action with
  | .DOWN => (c.add ⟨0, 1⟩, o)
  | .LEFT => (c.add ⟨-1, 0⟩, o)
  | .RIGHT => (c.add ⟨1, 0⟩, o)
  | .ROTATE => (c, Int.tmod (o + 1) NUM_ORIENTATIONS)

/-- Free function `getCoords(type, orientation, offset)`. -/
def getCoords (type : PieceType) (orientation : Orientation) (offset : Coord) : Option arr_4 :=
  (coord_map_at type orientation).map (arr_4.map (fun c => c.add offset))

/-- Class `Piece`. -/
structure Piece where
  bottom_center : Coord
  type : PieceType
  orientation : Orientation
  color : Color
deriving DecidableEq, Repr

/-- Method `Piece::update`. -/
def Piece.update (p : Piece) (action : Action) : Piece :=
  let r := Tetris.update p.bottom_center p.orientation action
  { p with bottom_center := r.1, orientation := r.2 }

/-- Method `Piece::getCoords`. -/
def Piece.getCoords (p : Piece) : Option arr_4 :=
  Tetris.getCoords p.type p.orientation p.bottom_center

/-- Method `Piece::getNextCoords`. -/
def Piece.getNextCoords (p : Piece) (action : Action) : Option arr_4 :=
  let r := Tetris.update p.bottom_center p.orientation action
  Tetris.getCoords p.type r.2 r.1

/-- Method `Piece::getColor`. -/
def Piece.getColor (p : Piece) : Color := p.color

/-! ## BoardRow -/

/-- Class `BoardRow`. -/
structure BoardRow where
  width : Int
  colors : List Color
  num_filled : Int
deriving DecidableEq, Repr

/-- Constructor `BoardRow(width)`: `width` empty cells; a negative length is rejected by
the vector constructor. -/
def BoardRow.init (width : Int) : Option BoardRow :=
  if width < 0 then none
  else some { width := width, colors := List.replicate width.toNat Color.EMPTY, num_filled := 0 }

/-- Move assignment `BoardRow::operator=(BoardRow&&)`: takes over the colors and the filled
count of `other`; the `width` member is not assigned. -/
def BoardRow.moveAssign (self other : BoardRow) : BoardRow :=
  { self with colors := other.colors, num_filled := other.num_filled }

/-- Method `BoardRow::getColor`. -/
def BoardRow.getColor (r : BoardRow) (offset : Int) : Option Color :=
  if offset < 0 then none else r.colors[offset.toNat]?

/-- Method `BoardRow::setColor`. -/
def BoardRow.setColor (r : BoardRow) (offset : Int) (c : Color) : Option BoardRow :=
  if offset < 0 ∨ (r.colors.length : Int) ≤ offset then none
  else some { r with
    num_filled := r.num_filled + (if c = Color.EMPTY then 0 else 1),
    colors := r.colors.set offset.toNat c }

/-- Method `BoardRow::isFull`. -/
def BoardRow.isFull (r : BoardRow) : Bool := r.num_filled == r.width

/-! ## Board -/

/-- Class `Board`; `rows` is stored bottom-up. -/
structure Board where
  height : Int
  width : Int
  rows : List BoardRow
deriving DecidableEq, Repr

/-- Constructor `Board(height, width)`. -/
def Board.init (height width : Int) : Board := { height := height, width := width, rows := [] }

def Board.getHeight (b : Board) : Int := b.height

def Board.getWidth (b : Board) : Int := b.width

def Board.getNumRows (b : Board) : Int := (b.rows.length : Int)

/-- Method `Board::getColor(int x, int y)`. -/
def Board.getColor (b : Board) (x y : Int) : Option Color :=
  let row_idx := b.height - y - 1
  if row_idx ≥ b.getNumRows then some Color.EMPTY
  else if row_idx < 0 then none
  else (b.rows[row_idx.toNat]?).bind (fun r => r.getColor x)

/-- Method `Board::getColor(Coord)`. -/
def Board.getColorAt (b : Board) (coord : Coord) : Option Color := b.getColor coord.x coord.y

/-- Method `Board::isLineFull`. -/
def Board.isLineFull (b : Board) (y : Int) : Option Bool :=
  let row_idx := b.height - y - 1
  if row_idx ≥ b.getNumRows then some false
  else if row_idx < 0 then none
  else (b.rows[row_idx.toNat]?).map BoardRow.isFull

/-- The loop `while (row_idx >= getNumRows()) rows.emplace_back(width);` of `Board::addPiece`,
iterated at most `fuel` times. -/
def growRows (width row_idx : Int) : Nat → List BoardRow → Option (List BoardRow)
  | 0, rows => some rows
  | fuel + 1, rows =>
    if row_idx ≥ (rows.length : Int) then
      (BoardRow.init width).bind (fun r => growRows width row_idx fuel (rows ++ [r]))
    else some rows

/-- Body of the `for` loop of `Board::addPiece` for one cell. The inner `while` loop runs
`row_idx + 1 - getNumRows()` times when that is positive, which is the fuel supplied. -/
def Board.addCell (b : Board) (color : Color) (coord : Coord) : Option Board :=
  let row_idx := b.height - coord.y - 1
  (growRows b.width row_idx (row_idx + 1 - b.getNumRows).toNat b.rows).bind (fun rows =>
    if row_idx < 0 then none
    else (rows[row_idx.toNat]?).bind (fun r =>
      (r.setColor coord.x color).map (fun r' => { b with rows := rows.set row_idx.toNat r' })))

/-- The `for` loop of `Board::addPiece` over the cells of the piece. -/
def Board.addCells (color : Color) : Board → List Coord → Option Board
  | b, [] => some b
  | b, c :: cs => (b.addCell color c).bind (fun b' => Board.addCells color b' cs)

/-- Method `Board::addPiece`. -/
def Board.addPiece (b : Board) (p : Piece) : Option Board :=
  p.getCoords.bind (fun cs => Board.addCells p.getColor b cs.toList)

/-- The call `std::remove_if(rows.begin(), rows.end(), isFull)` followed by `erase` of the
tail. `slots` are the vector elements from the write position on, `unread` those from the
read position on. A kept row is move-assigned into the next slot (before the first full
row the slot is the row itself, on which the assignment changes nothing); what remains
after the last kept row is erased. -/
def remove_if_full : List BoardRow → List BoardRow → List BoardRow
  | _, [] => []
  | [], _ :: _ => []
  | s :: ss, r :: rs =>
    if r.isFull then remove_if_full (s :: ss) rs
    else s.moveAssign r :: remove_if_full ss rs

/-- Method `Board::removeFullRows`. -/
def Board.removeFullRows (b : Board) : Board :=
  { b with rows := remove_if_full b.rows b.rows }

/-! ## Game -/

/-- The three successive results of `rand()` consumed by `Game::newPiece`. -/
structure Rand where
  r_type : Nat
  r_orientation : Nat
  r_color : Nat
deriving DecidableEq, Repr

/-- Class `Game`; `piece = none` is the null `unique_ptr`. -/
structure Game where
  board : Board
  piece : Option Piece
  game_started : Bool
  game_over : Bool
deriving DecidableEq, Repr

/-- Constructor `Game(height, width)`. -/
def Game.init (height width : Int) : Game :=
  { board := Board.init height width, piece := none, game_started := false, game_over := false }

def Game.getBoard (g : Game) : Board := g.board

def Game.getPiece (g : Game) : Option Piece := g.piece

def Game.gameStarted (g : Game) : Bool := g.game_started

def Game.gameOver (g : Game) : Bool := g.game_over

/-- The piece built by `Game::newPiece` from the board width and the three random draws. -/
def spawnPiece (b : Board) (rnd : Rand) : Piece :=
  { bottom_center := ⟨Int.tdiv b.getWidth 2 - 1, -1⟩,
    type := PieceType.static_cast (rnd.r_type % NUM_SHAPES),
    orientation := ((rnd.r_orientation : Int)).tmod NUM_ORIENTATIONS,
    color := Color.static_cast (rnd.r_color % NUM_COLORS) }

/-- Method `Game::newPiece`. -/
def Game.newPiece (g : Game) (rnd : Rand) : Game :=
  { g with piece := some (spawnPiece g.board rnd) }

/-- Method `Game::start`. -/
def Game.start (g : Game) (rnd : Rand) : Game :=
  ({ g with game_started := true }).newPiece rnd

/-- The loop of `Game::detectConflict` over the remaining cells. -/
def detectConflictLoop (b : Board) : List Coord → Option Bool
  | [] => some false
  | coord :: rest =>
    if coord.x < 0 ∨ coord.x ≥ b.getWidth ∨ coord.y ≥ b.getHeight then some true
    else (b.getColorAt coord).bind (fun col =>
      if col ≠ Color.EMPTY then some true else detectConflictLoop b rest)

/-- Method `Game::detectConflict`. -/
def Game.detectConflict (g : Game) (coords : arr_4) : Option Bool :=
  detectConflictLoop g.board coords.toList

/-- Lines 226-235 of `Game::update`: resolve `action` for the active piece `p`. -/
def Game.applyAction (g : Game) (p : Piece) (action : Action) : Option (Bool × Game) :=
  (p.getNextCoords action).bind (fun next_coords =>
    (g.detectConflict next_coords).bind (fun conflict =>
      if !conflict then
        some (true, { g with piece := some (p.update action) })
      else if action = Action.DOWN then
        (g.board.addPiece p).map (fun b => (true, { g with board := b, piece := none }))
      else
        some (true, { g with piece := some p })))

/-- Method `Game::update`: the returned flag and the state after the call. -/
def Game.update (g : Game) (action : Action) (rnd : Rand) : Option (Bool × Game) :=
  if g.game_over then some (false, g)
  else
    let g1 : Game := { g with board := g.board.removeFullRows }
    match g1.piece with
    | some p => g1.applyAction p action
    | none =>
      let g2 := g1.newPiece rnd
      let p := spawnPiece g1.board rnd
      (p.getCoords).bind (fun cs =>
        (g2.detectConflict cs).bind (fun conflict =>
          if conflict then some (false, { g2 with game_over := true })
          else g2.applyAction p action))

/-- A sequence of `update` calls: the flags returned, in order, and the final state. -/
def Game.run : Game → List (Action × Rand) → Option (List Bool × Game)
  | g, [] => some ([], g)
  | g, (a, rnd) :: rest =>
    (g.update a rnd).bind (fun r =>
      (Game.run r.2 rest).map (fun s => (r.1 :: s.1, s.2)))

/-! ## Invariants, outcomes and example states used by the statements -/

/-- Representation invariant of `Board`: every stored row was built by `BoardRow(width)`
with the width of the board, so it carries that width and holds that many cells. -/
def Board.rowsOk (b : Board) : Prop :=
  ∀ r ∈ b.rows, r.width = b.width ∧ (r.colors.length : Int) = b.width

instance (b : Board) : Decidable b.rowsOk := by
  unfold Board.rowsOk; infer_instance

/-- The row built by `BoardRow(width)` for a non-negative width. -/
def emptyRow (width : Int) : BoardRow :=
  { width := width, colors := List.replicate width.toNat Color.EMPTY, num_filled := 0 }

/-- The cell lies inside the horizontal bounds and above the floor of the board. -/
def Board.inBounds (b : Board) (c : Coord) : Prop :=
  0 ≤ c.x ∧ c.x < b.width ∧ c.y < b.height

instance (b : Board) (c : Coord) : Decidable (b.inBounds c) := by
  unfold Board.inBounds; infer_instance

/-- The board of Scenario D: a full row, a row with one cell set, and another full row. -/
def scenarioD : Board :=
  { height := 4, width := 2,
    rows := [ { width := 2, colors := [Color.RED, Color.RED], num_filled := 2 },
              { width := 2, colors := [Color.GREEN, Color.EMPTY], num_filled := 1 },
              { width := 2, colors := [Color.BLUE, Color.BLUE], num_filled := 2 } ] }

/-- The active piece, if any, has its four cells defined and inside the bounds. -/
def Game.pieceOk (g : Game) : Prop :=
  match g.piece with
  | none => True
  | some p =>
    match p.getCoords with
    | none => False
    | some cs => ∀ c ∈ cs.toList, g.board.inBounds c

instance (g : Game) : Decidable g.pieceOk := by
  unfold Game.pieceOk
  split
  · infer_instance
  · split <;> infer_instance

/-- States in which every vector access of `Game::update` is in range: the board satisfies
its representation invariant and, while the game runs, the active piece is in bounds. -/
def Game.wf (g : Game) : Prop :=
  g.board.rowsOk ∧ (g.game_over = false → g.pieceOk)

instance (g : Game) : Decidable g.wf := by
  unfold Game.wf; infer_instance

/-- What one `Game::update` call does to the board of a running game: either it only
clears the rows that were full at entry, or (action DOWN) it clears them and then locks
the piece, active at entry or spawned in this call, into the cleared board. -/
def Game.boardOutcome (g : Game) (a : Action) (rnd : Rand) (g' : Game) : Prop :=
  (g'.board = g.board.removeFullRows ∧
    g'.board.getNumRows
      = g.board.getNumRows - ((g.board.rows.filter BoardRow.isFull).length : Int)) ∨
  (a = Action.DOWN ∧ g'.piece = none ∧ g'.game_over = false ∧
    ∃ p, (g.piece = some p ∨ (g.piece = none ∧ p = spawnPiece g.board.removeFullRows rnd)) ∧
      g.board.removeFullRows.addPiece p = some g'.board)

/-- A finished game: the stack reaches above the board and the spawned piece collided. -/
def overState : Game :=
  { board :=
      { height := 2, width := 4,
        rows := List.replicate 4
          { width := 4, colors := [Color.EMPTY, Color.RED, Color.RED, Color.EMPTY],
            num_filled := 2 } },
    piece := some { bottom_center := ⟨1, -1⟩, type := PieceType.SHAPE_O, orientation := 0,
                    color := Color.RED },
    game_started := true, game_over := true }

/-- State of `Game(4,4)` right after `start()` drew a horizontal I piece. -/
def startState : Game := (Game.init 4 4).start ⟨0, 0, 0⟩

/-- State of `Game(4,4)` in which the horizontal I piece lies on the floor (five DOWN moves
after the start). -/
def lockReady : Game :=
  { board := { height := 4, width := 4, rows := [] },
    piece := some { bottom_center := ⟨1, 4⟩, type := PieceType.SHAPE_I, orientation := 0,
                    color := Color.RED },
    game_started := true, game_over := false }

/-- The state `lockReady` after one more DOWN: the piece is locked and fills the bottom row. -/
def lockDone : Game :=
  { board :=
      { height := 4, width := 4,
        rows := [ { width := 4, colors := List.replicate 4 Color.RED, num_filled := 4 } ] },
    piece := none, game_started := true, game_over := false }

/-- The state `lockDone` after one more DOWN: the full row is gone, and a new horizontal I
piece has been spawned and moved down once. -/
def lockCleared : Game :=
  { board := { height := 4, width := 4, rows := [] },
    piece := some { bottom_center := ⟨1, 0⟩, type := PieceType.SHAPE_I, orientation := 0,
                    color := Color.RED },
    game_started := true, game_over := false }

/-- A running game without active piece whose stack occupies the spawn cells. -/
def blockedSpawn : Game :=
  { board :=
      { height := 2, width := 4,
        rows := List.replicate 4
          { width := 4, colors := [Color.EMPTY, Color.RED, Color.RED, Color.EMPTY],
            num_filled := 2 } },
    piece := none, game_started := true, game_over := false }

/-- Inputs played on `Game(2,4)` started with an O piece: the O piece is dropped, then two
vertical I pieces are dropped along the left and the right wall; the last DOWN locks the
second I piece. -/
def stackInputs : List (Action × Rand) :=
  [ (Action.DOWN, ⟨3, 0, 0⟩), (Action.DOWN, ⟨3, 0, 0⟩), (Action.DOWN, ⟨3, 0, 0⟩),
    (Action.LEFT, ⟨0, 1, 1⟩), (Action.DOWN, ⟨0, 1, 1⟩), (Action.DOWN, ⟨0, 1, 1⟩),
    (Action.DOWN, ⟨0, 1, 1⟩),
    (Action.RIGHT, ⟨0, 1, 1⟩), (Action.RIGHT, ⟨0, 1, 1⟩), (Action.DOWN, ⟨0, 1, 1⟩),
    (Action.DOWN, ⟨0, 1, 1⟩), (Action.DOWN, ⟨0, 1, 1⟩) ]

/-- The state reached by `stackInputs`: two full rows below two rows with the wall cells set. -/
def stackLocked : Game :=
  { board :=
      { height := 2, width := 4,
        rows :=
          [ { width := 4, colors := [Color.GREEN, Color.RED, Color.RED, Color.GREEN],
              num_filled := 4 },
            { width := 4, colors := [Color.GREEN, Color.RED, Color.RED, Color.GREEN],
              num_filled := 4 },
            { width := 4, colors := [Color.GREEN, Color.EMPTY, Color.EMPTY, Color.GREEN],
              num_filled := 2 },
            { width := 4, colors := [Color.GREEN, Color.EMPTY, Color.EMPTY, Color.GREEN],
              num_filled := 2 } ] },
    piece := none, game_started := true, game_over := false }

/-- The state `stackLocked` after one DOWN that spawns an L piece (orientation 1). -/
def stackAfter : Game :=
  { board :=
      { height := 2, width := 4,
        rows :=
          [ { width := 4, colors := [Color.GREEN, Color.EMPTY, Color.EMPTY, Color.GREEN],
              num_filled := 2 },
            { width := 4, colors := [Color.GREEN, Color.EMPTY, Color.EMPTY, Color.GREEN],
              num_filled := 2 },
            { width := 4, colors := [Color.BLUE, Color.EMPTY, Color.EMPTY, Color.EMPTY],
              num_filled := 1 },
            { width := 4, colors := [Color.BLUE, Color.BLUE, Color.BLUE, Color.EMPTY],
              num_filled := 3 } ] },
    piece := none, game_started := true, game_over := false }

/-- Every stored row holds exactly `width` cells. -/
def Board.rowsHaveWidthCells (b : Board) : Prop :=
  ∀ r ∈ b.rows, (r.colors.length : Int) = b.width

instance (b : Board) : Decidable b.rowsHaveWidthCells := by
  unfold Board.rowsHaveWidthCells; infer_instance

/-- The cells at which the loop of `Game::detectConflict` calls `Board::getColor`, in
order. A cell is probed only after its own bounds test has passed, and the loop goes on to
the next cell only when the probed color is `EMPTY`. -/
def detectConflictProbes (b : Board) : List Coord → List Coord
  | [] => []
  | coord :: rest =>
    if coord.x < 0 ∨ coord.x ≥ b.getWidth ∨ coord.y ≥ b.getHeight then []
    else
      coord :: (match b.getColorAt coord with
        | some col => if col ≠ Color.EMPTY then [] else detectConflictProbes b rest
        | none => [])

/-- Number of cells of the row that are not `EMPTY`. -/
def BoardRow.countFilled (r : BoardRow) : Nat :=
  (r.colors.filter (fun c => decide (c ≠ Color.EMPTY))).length

/-- Row invariant: the cached `num_filled` is the number of non-`EMPTY` cells. -/
def BoardRow.countOk (r : BoardRow) : Prop := r.num_filled = (r.countFilled : Int)

instance (r : BoardRow) : Decidable r.countOk := by
  unfold BoardRow.countOk; infer_instance

/-- Every stored row satisfies the row invariant. -/
def Board.countsOk (b : Board) : Prop := ∀ r ∈ b.rows, r.countOk

instance (b : Board) : Decidable b.countsOk := by
  unfold Board.countsOk; infer_instance

/-- A board with one stored row in which only the cell `(1, 1)` is set. -/
def overlapBoard : Board :=
  { height := 2, width := 4,
    rows := [ { width := 4, colors := [Color.EMPTY, Color.RED, Color.EMPTY, Color.EMPTY],
                num_filled := 1 } ] }

/-- An O piece whose cells `(1, 0), (2, 0), (1, 1), (2, 1)` include the set cell of
`overlapBoard`. -/
def overlapPiece : Piece :=
  { bottom_center := ⟨1, 1⟩, type := PieceType.SHAPE_O, orientation := 0, color := Color.BLUE }

/-- The board `overlapBoard` after `addPiece(overlapPiece)`. -/
def overlapResult : Board :=
  { height := 2, width := 4,
    rows := [ { width := 4, colors := [Color.EMPTY, Color.BLUE, Color.BLUE, Color.EMPTY],
                num_filled := 3 },
              { width := 4, colors := [Color.EMPTY, Color.BLUE, Color.BLUE, Color.EMPTY],
                num_filled := 2 } ] }

/-- An O piece next to the set cell of `overlapBoard`: cells `(2, 0), (3, 0), (2, 1), (3, 1)`. -/
def besidePiece : Piece :=
  { bottom_center := ⟨2, 1⟩, type := PieceType.SHAPE_O, orientation := 0, color := Color.BLUE }

/-- Bound on the stored rows in terms of the board height `h`: the board has height `h`, at
most `h + 4` rows are stored, and the pivot of the active piece is not above row `-1`. -/
def Game.bufferBound (h : Int) (g : Game) : Prop :=
  g.board.height = h ∧ (g.board.rows.length : Int) ≤ h + 4 ∧
    ∀ p, g.piece = some p → -1 ≤ p.bottom_center.y

/-- State of `Game(1,4)` after the start drew a vertical I piece and two DOWN calls: the
piece moved down once and was then locked with its cells in the rows `-3 .. 0`. -/
def towerState : Game :=
  { board :=
      { height := 1, width := 4,
        rows := List.replicate 4
          { width := 4, colors := [Color.EMPTY, Color.RED, Color.EMPTY, Color.EMPTY],
            num_filled := 1 } },
    piece := none, game_started := true, game_over := false }

/-- Invariant of a game on a board of height `h` and width `w`: the state is well formed,
every row has `num_filled` equal to its number of non-`EMPTY` cells, and while the game
runs with an active piece no row is full and the cells of the piece are `EMPTY` on the
board. -/
def Game.consistent (h w : Int) (g : Game) : Prop :=
  g.board.height = h ∧ g.board.width = w ∧ g.wf ∧ g.board.countsOk ∧
  (g.game_over = false → ∀ p, g.piece = some p →
    (∀ r ∈ g.board.rows, r.isFull = false) ∧
    ∃ cs, p.getCoords = some cs ∧ ∀ c ∈ cs.toList, g.board.getColorAt c = some Color.EMPTY)

/-! ## Lemmas -/

theorem remove_if_full_eq_zipWith (slots rows : List BoardRow) :
    remove_if_full slots rows
      = List.zipWith BoardRow.moveAssign slots (rows.filter (fun r => !r.isFull)) := by
  induction rows generalizing slots with
  | nil => cases slots <;> simp [remove_if_full]
  | cons r rs ih =>
    cases slots with
    | nil => simp [remove_if_full]
    | cons s ss =>
      by_cases hr : r.isFull = true
      · simp [remove_if_full, hr, ih]
      · simp [remove_if_full, hr, ih]

theorem zipWith_moveAssign_same_width (w : Int) :
    ∀ (slots kept : List BoardRow), (∀ s ∈ slots, s.width = w) → (∀ r ∈ kept, r.width = w) →
      kept.length ≤ slots.length → List.zipWith BoardRow.moveAssign slots kept = kept
  | _, [], _, _, _ => by simp
  | [], _ :: _, _, _, hl => by simp at hl
  | s :: ss, r :: rs, hs, hr, hl => by
    have h1 : s.moveAssign r = r := by
      have a := hs s (by simp)
      have b := hr r (by simp)
      cases r; cases s; simp_all [BoardRow.moveAssign]
    simp only [List.zipWith_cons_cons, h1]
    rw [zipWith_moveAssign_same_width w ss rs (fun x hx => hs x (by simp [hx]))
      (fun x hx => hr x (by simp [hx])) (by simpa using hl)]

theorem removeFullRows_rows_of_width (b : Board) (h : ∀ r ∈ b.rows, r.width = b.width) :
    b.removeFullRows.rows = b.rows.filter (fun r => !r.isFull) := by
  unfold Board.removeFullRows
  simp only
  rw [remove_if_full_eq_zipWith]
  apply zipWith_moveAssign_same_width b.width
  · intro s hs; exact h s hs
  · intro r hr; exact h r (List.mem_filter.mp hr).1
  · exact List.length_filter_le _ _

theorem removeFullRows_rowsOk (b : Board) (h : b.rowsOk) : b.removeFullRows.rowsOk := by
  intro r hr
  rw [removeFullRows_rows_of_width b (fun r hr => (h r hr).1)] at hr
  exact h r (List.mem_filter.mp hr).1

theorem getColor_defined (b : Board) (h : b.rowsOk) (x y : Int)
    (hx0 : 0 ≤ x) (hx1 : x < b.width) (hy : y < b.height) :
    ∃ c, b.getColor x y = some c := by
  unfold Board.getColor
  simp only [Board.getNumRows]
  by_cases h1 : b.height - y - 1 ≥ (b.rows.length : Int)
  · exact ⟨Color.EMPTY, by simp [h1]⟩
  · have h2 : ¬ (b.height - y - 1 < 0) := by omega
    have h3 : (b.height - y - 1).toNat < b.rows.length := by omega
    obtain ⟨r, hr⟩ : ∃ r, b.rows[(b.height - y - 1).toNat]? = some r :=
      ⟨b.rows[(b.height - y - 1).toNat], List.getElem?_eq_getElem h3⟩
    have hmem : r ∈ b.rows := List.getElem?_mem hr
    have hlen := (h r hmem).2
    have h4 : x.toNat < r.colors.length := by omega
    refine ⟨r.colors[x.toNat], ?_⟩
    have h5 : ¬ (x < 0) := by omega
    rw [if_neg h1, if_neg h2, hr]
    simp only [Option.some_bind, BoardRow.getColor, if_neg h5]
    exact List.getElem?_eq_getElem h4

theorem detectConflictLoop_spec (b : Board) (h : b.rowsOk) (cs : List Coord) :
    ∃ r, detectConflictLoop b cs = some r ∧
      (r = true ↔ ∃ c ∈ cs, c.x < 0 ∨ c.x ≥ b.getWidth ∨ c.y ≥ b.getHeight ∨
        ∃ col, b.getColorAt c = some col ∧ col ≠ Color.EMPTY) := by
  induction cs with
  | nil => exact ⟨false, by simp [detectConflictLoop]⟩
  | cons c rest ih =>
    obtain ⟨r, hr, hiff⟩ := ih
    by_cases hb : c.x < 0 ∨ c.x ≥ b.getWidth ∨ c.y ≥ b.getHeight
    · refine ⟨true, by simp [detectConflictLoop, hb], ?_⟩
      simp only [true_iff]
      refine ⟨c, by simp, ?_⟩
      rcases hb with hb | hb | hb
      · exact Or.inl hb
      · exact Or.inr (Or.inl hb)
      · exact Or.inr (Or.inr (Or.inl hb))
    · have hb' := hb
      simp only [not_or, not_lt, ge_iff_le, not_le, Board.getWidth, Board.getHeight] at hb'
      obtain ⟨col, hcol⟩ := getColor_defined b h c.x c.y hb'.1 hb'.2.1 hb'.2.2
      have hcol' : b.getColorAt c = some col := hcol
      by_cases he : col = Color.EMPTY
      · refine ⟨r, by simp [detectConflictLoop, hb, hcol', he, hr], ?_⟩
        rw [hiff]
        constructor
        · rintro ⟨c', hc', hp⟩
          exact ⟨c', by simp [hc'], hp⟩
        · rintro ⟨c', hc', hp⟩
          rcases List.mem_cons.mp hc' with rfl | hc''
          · rcases hp with hp | hp | hp | ⟨col', hp1, hp2⟩
            · exact absurd (Or.inl hp) hb
            · exact absurd (Or.inr (Or.inl hp)) hb
            · exact absurd (Or.inr (Or.inr hp)) hb
            · rw [hcol'] at hp1
              cases hp1
              exact absurd he hp2
          · exact ⟨c', hc'', hp⟩
      · refine ⟨true, by simp [detectConflictLoop, hb, hcol', he], ?_⟩
        simp only [true_iff]
        exact ⟨c, by simp, Or.inr (Or.inr (Or.inr ⟨col, hcol', he⟩))⟩

theorem BoardRow.init_eq (width : Int) (h : 0 ≤ width) :
    BoardRow.init width = some (emptyRow width) := by
  have : ¬ (width < 0) := by omega
  simp [BoardRow.init, emptyRow, this]

theorem growRows_eq (width row_idx : Int) (hw : 0 ≤ width) :
    ∀ (fuel : Nat) (rows : List BoardRow), fuel = (row_idx + 1 - (rows.length : Int)).toNat →
      growRows width row_idx fuel rows = some (rows ++ List.replicate fuel (emptyRow width)) := by
  intro fuel
  induction fuel with
  | zero => intro rows _; simp [growRows]
  | succ n ih =>
    intro rows hf
    have h1 : row_idx ≥ (rows.length : Int) := by omega
    have h2 : n = (row_idx + 1 - ((rows ++ [emptyRow width]).length : Int)).toNat := by
      simp only [List.length_append, List.length_singleton, Nat.cast_add, Nat.cast_one]
      omega
    simp only [growRows, if_pos h1, BoardRow.init_eq width hw, Option.some_bind]
    rw [ih _ h2, List.append_assoc]
    rfl

theorem grow_rowsOk (b : Board) (h : b.rowsOk) (hw : 0 ≤ b.width) (k : Nat) :
    ({ b with rows := b.rows ++ List.replicate k (emptyRow b.width) } : Board).rowsOk := by
  intro r hr
  simp only [List.mem_append] at hr
  rcases hr with hr | hr
  · exact h r hr
  · have := List.eq_of_mem_replicate hr
    subst this
    simp only [emptyRow, List.length_replicate, true_and]
    omega

theorem grow_getColor (b : Board) (k : Nat) (x y : Int)
    (hx0 : 0 ≤ x) (hx1 : x < b.width) (hy : y < b.height) :
    ({ b with rows := b.rows ++ List.replicate k (emptyRow b.width) } : Board).getColor x y
      = b.getColor x y := by
  unfold Board.getColor
  simp only [Board.getNumRows, List.length_append, List.length_replicate, Nat.cast_add]
  have h2 : ¬ (b.height - y - 1 < 0) := by omega
  have h5 : ¬ (x < 0) := by omega
  by_cases h1 : b.height - y - 1 ≥ (b.rows.length : Int)
  · rw [if_pos h1]
    by_cases h3 : b.height - y - 1 ≥ (b.rows.length : Int) + (k : Int)
    · rw [if_pos h3]
    · rw [if_neg h3, if_neg h2]
      have h4 : b.rows.length ≤ (b.height - y - 1).toNat := by omega
      have h6 : (b.height - y - 1).toNat - b.rows.length < k := by omega
      have h7 : x.toNat < b.width.toNat := by omega
      rw [List.getElem?_append_right h4, List.getElem?_replicate_of_lt h6]
      simp only [Option.some_bind, BoardRow.getColor, if_neg h5, emptyRow]
      exact List.getElem?_replicate_of_lt h7
  · have h3 : ¬ (b.height - y - 1 ≥ (b.rows.length : Int) + (k : Int)) := by omega
    have h4 : (b.height - y - 1).toNat < b.rows.length := by omega
    rw [if_neg h1, if_neg h3, if_neg h2, List.getElem?_append_left h4, if_neg h2]

theorem set_getColor (b : Board) (c : Coord) (color : Color) (r r' : BoardRow)
    (hy : c.y < b.height) (hx0 : 0 ≤ c.x)
    (hr : b.rows[(b.height - c.y - 1).toNat]? = some r)
    (hr' : r.setColor c.x color = some r') (x y : Int)
    (hx0' : 0 ≤ x) (hy' : y < b.height) :
    ({ b with rows := b.rows.set (b.height - c.y - 1).toNat r' } : Board).getColor x y
      = if x = c.x ∧ y = c.y then some color else b.getColor x y := by
  have hlt : (b.height - c.y - 1).toNat < b.rows.length := by
    obtain ⟨hh, _⟩ := List.getElem?_eq_some.mp hr
    exact hh
  have hset : ¬ (c.x < 0 ∨ (r.colors.length : Int) ≤ c.x) := by
    intro hc
    simp [BoardRow.setColor, hc] at hr'
  simp only [BoardRow.setColor, if_neg hset, Option.some.injEq] at hr'
  subst hr'
  unfold Board.getColor
  simp only [Board.getNumRows, List.length_set]
  have h2 : ¬ (b.height - y - 1 < 0) := by omega
  have h5 : ¬ (x < 0) := by omega
  by_cases h1 : b.height - y - 1 ≥ (b.rows.length : Int)
  · have hne : ¬ (x = c.x ∧ y = c.y) := by
      rintro ⟨_, rfl⟩
      omega
    rw [if_pos h1, if_neg hne, if_pos h1]
  · rw [if_neg h1, if_neg h2, if_neg h1, if_neg h2, List.getElem?_set]
    by_cases hy2 : y = c.y
    · subst hy2
      rw [if_pos rfl, if_pos hlt, hr]
      simp only [Option.some_bind, BoardRow.getColor, if_neg h5, List.getElem?_set]
      by_cases hx2 : x = c.x
      · subst hx2
        have : c.x.toNat < r.colors.length := by omega
        simp [this]
      · have : ¬ (c.x.toNat = x.toNat) := by omega
        simp [this, hx2]
    · have hne : ¬ ((b.height - c.y - 1).toNat = (b.height - y - 1).toNat) := by omega
      have hne2 : ¬ (x = c.x ∧ y = c.y) := fun hc => hy2 hc.2
      rw [if_neg hne, if_neg hne2]

theorem set_rowsOk (b : Board) (h : b.rowsOk) (i : Nat) (offset : Int) (color : Color)
    (r r' : BoardRow) (hr : b.rows[i]? = some r) (hr' : r.setColor offset color = some r') :
    ({ b with rows := b.rows.set i r' } : Board).rowsOk := by
  have hset : ¬ (offset < 0 ∨ (r.colors.length : Int) ≤ offset) := by
    intro hc
    simp [BoardRow.setColor, hc] at hr'
  simp only [BoardRow.setColor, if_neg hset, Option.some.injEq] at hr'
  subst hr'
  have hrmem := h r (List.getElem?_mem hr)
  intro q hq
  rcases List.mem_or_eq_of_mem_set hq with hq | hq
  · exact h q hq
  · subst hq
    simpa using hrmem

/-- Effect of one iteration of the `addPiece` loop on a board satisfying the
representation invariant, for a cell inside the horizontal bounds and above the floor. -/
theorem addCell_spec (b : Board) (h : b.rowsOk) (color : Color) (c : Coord)
    (hx0 : 0 ≤ c.x) (hx1 : c.x < b.width) (hy : c.y < b.height) :
    ∃ b', b.addCell color c = some b' ∧ b'.rowsOk ∧ b'.height = b.height ∧
      b'.width = b.width ∧
      ∀ x y, 0 ≤ x → x < b.width → y < b.height →
        b'.getColor x y = if x = c.x ∧ y = c.y then some color else b.getColor x y := by
  have hw : 0 ≤ b.width := by omega
  set k := (b.height - c.y - 1 + 1 - b.getNumRows).toNat with hk
  set b1 : Board := { b with rows := b.rows ++ List.replicate k (emptyRow b.width) } with hb1
  have hb1ok : b1.rowsOk := grow_rowsOk b h hw k
  have hidx : ¬ (b.height - c.y - 1 < 0) := by omega
  have hlen : (b.height - c.y - 1).toNat < b1.rows.length := by
    simp only [hb1, List.length_append, List.length_replicate, hk, Board.getNumRows]
    omega
  obtain ⟨r, hr⟩ : ∃ r, b1.rows[(b.height - c.y - 1).toNat]? = some r :=
    ⟨_, List.getElem?_eq_getElem hlen⟩
  have hrlen := (hb1ok r (List.getElem?_mem hr)).2
  have hset : ¬ (c.x < 0 ∨ (r.colors.length : Int) ≤ c.x) := by
    have : b1.width = b.width := rfl
    omega
  obtain ⟨r', hr'⟩ : ∃ r', r.setColor c.x color = some r' := by
    simp only [BoardRow.setColor, if_neg hset]
    exact ⟨_, rfl⟩
  refine ⟨{ b1 with rows := b1.rows.set (b.height - c.y - 1).toNat r' }, ?_, ?_, rfl, rfl, ?_⟩
  · unfold Board.addCell
    simp only
    rw [growRows_eq b.width _ hw k b.rows hk]
    simp only [Option.some_bind, if_neg hidx]
    have hr2 : (b.rows ++ List.replicate k (emptyRow b.width))[(b.height - c.y - 1).toNat]?
        = some r := hr
    rw [hr2]
    simp only [Option.some_bind, hr', Option.map_some', hb1]
  · exact set_rowsOk b1 hb1ok _ c.x color r r' hr hr'
  · intro x y hx0' hx1' hy'
    rw [set_getColor b1 c color r r' hy hx0 hr hr' x y hx0' hy']
    rw [grow_getColor b k x y hx0' hx1' hy']

theorem addCells_spec (color : Color) (cs : List Coord) :
    ∀ (b : Board), b.rowsOk → (∀ c ∈ cs, b.inBounds c) →
    ∃ b', Board.addCells color b cs = some b' ∧ b'.rowsOk ∧ b'.height = b.height ∧
      b'.width = b.width ∧
      ∀ x y, 0 ≤ x → x < b.width → y < b.height →
        b'.getColor x y = if (⟨x, y⟩ : Coord) ∈ cs then some color else b.getColor x y := by
  induction cs with
  | nil =>
    intro b h _
    exact ⟨b, rfl, h, rfl, rfl, fun x y _ _ _ => by simp⟩
  | cons c rest ih =>
    intro b h hin
    have hc := hin c (by simp)
    obtain ⟨b1, h1, h1ok, h1h, h1w, h1c⟩ := addCell_spec b h color c hc.1 hc.2.1 hc.2.2
    have hin1 : ∀ c' ∈ rest, b1.inBounds c' := by
      intro c' hc'
      have := hin c' (by simp [hc'])
      unfold Board.inBounds at this ⊢
      rw [h1h, h1w]
      exact this
    obtain ⟨b2, h2, h2ok, h2h, h2w, h2c⟩ := ih b1 h1ok hin1
    refine ⟨b2, ?_, h2ok, by rw [h2h, h1h], by rw [h2w, h1w], ?_⟩
    · simp only [Board.addCells, h1, Option.some_bind, h2]
    · intro x y hx0 hx1 hy
      rw [h2c x y hx0 (by rw [h1w]; exact hx1) (by rw [h1h]; exact hy), h1c x y hx0 hx1 hy]
      by_cases hm : (⟨x, y⟩ : Coord) ∈ rest
      · simp [hm]
      · by_cases he : x = c.x ∧ y = c.y
        · have : (⟨x, y⟩ : Coord) = c := by
            cases c; simp only [Coord.mk.injEq]; exact he
          rw [if_neg hm, if_pos he, if_pos (by rw [this]; simp)]
        · have : ¬ ((⟨x, y⟩ : Coord) = c) := by
            intro hc2; apply he; rw [← hc2]; exact ⟨rfl, rfl⟩
          rw [if_neg hm, if_neg he, if_neg (by simp [hm, this])]

/-- Effect of `Board::addPiece` on a board satisfying the representation invariant, for a
piece whose four cells are in bounds. -/
theorem addPiece_spec (b : Board) (h : b.rowsOk) (p : Piece) (cs : arr_4)
    (hcs : p.getCoords = some cs) (hin : ∀ c ∈ cs.toList, b.inBounds c) :
    ∃ b', b.addPiece p = some b' ∧ b'.rowsOk ∧ b'.height = b.height ∧ b'.width = b.width ∧
      ∀ x y, 0 ≤ x → x < b.width → y < b.height →
        b'.getColor x y
          = if (⟨x, y⟩ : Coord) ∈ cs.toList then some p.getColor else b.getColor x y := by
  obtain ⟨b', h1, h2⟩ := addCells_spec p.getColor cs.toList b h hin
  exact ⟨b', by simp only [Board.addPiece, hcs, Option.some_bind, h1], h2⟩

theorem coord_map_at_defined (t : PieceType) (o : Int) (h0 : 0 ≤ o) (h1 : o < 4) :
    ∃ m, coord_map_at t o = some m := by
  have hcases : o = 0 ∨ o = 1 ∨ o = 2 ∨ o = 3 := by omega
  rcases hcases with rfl | rfl | rfl | rfl <;> cases t <;> exact ⟨_, rfl⟩

theorem coord_map_at_range (t : PieceType) (o : Int) (m : arr_4)
    (h : coord_map_at t o = some m) : 0 ≤ o ∧ o < 4 := by
  unfold coord_map_at at h
  by_cases h0 : o < 0
  · simp [h0] at h
  · rw [if_neg h0] at h
    obtain ⟨hlt, _⟩ := List.getElem?_eq_some.mp h
    have : (coord_map t).length = 4 := by cases t <;> rfl
    omega

theorem tmod_four_range (o : Int) (h0 : 0 ≤ o) :
    0 ≤ Int.tmod o NUM_ORIENTATIONS ∧ Int.tmod o NUM_ORIENTATIONS < 4 := by
  have h : Int.tmod o NUM_ORIENTATIONS = o % 4 := by
    unfold NUM_ORIENTATIONS
    rw [Int.tmod_eq_emod h0 (by decide)]
  rw [h]
  omega

theorem getNextCoords_defined (p : Piece) (cs : arr_4) (a : Action)
    (h : p.getCoords = some cs) : ∃ ncs, p.getNextCoords a = some ncs := by
  unfold Piece.getCoords getCoords at h
  cases hm : coord_map_at p.type p.orientation with
  | none => simp [hm] at h
  | some m =>
    have hr : (0 : Int) ≤ p.orientation ∧ (p.orientation : Int) < 4 :=
      coord_map_at_range _ _ _ hm
    cases a
    · exact ⟨_, by simp [Piece.getNextCoords, update, getCoords, hm]; rfl⟩
    · exact ⟨_, by simp [Piece.getNextCoords, update, getCoords, hm]; rfl⟩
    · exact ⟨_, by simp [Piece.getNextCoords, update, getCoords, hm]; rfl⟩
    · have hr2 := tmod_four_range ((p.orientation : Int) + 1) (by omega)
      obtain ⟨m2, hm2⟩ := coord_map_at_defined p.type _ hr2.1 hr2.2
      exact ⟨_, by simp [Piece.getNextCoords, update, getCoords, hm2]; rfl⟩

theorem getCoords_update (p : Piece) (a : Action) :
    (p.update a).getCoords = p.getNextCoords a := rfl

theorem update_of_piece (g : Game) (p : Piece) (a : Action) (rnd : Rand)
    (hover : g.game_over = false) (hp : g.piece = some p) :
    g.update a rnd
      = ({ g with board := g.board.removeFullRows } : Game).applyAction p a := by
  simp [Game.update, hover, hp]

theorem update_of_no_piece (g : Game) (a : Action) (rnd : Rand)
    (hover : g.game_over = false) (hp : g.piece = none) :
    g.update a rnd
      = ((spawnPiece g.board.removeFullRows rnd).getCoords).bind (fun cs =>
          ((({ g with board := g.board.removeFullRows } : Game).newPiece rnd).detectConflict
              cs).bind (fun conflict =>
            if conflict then
              some (false, { (({ g with board := g.board.removeFullRows } : Game).newPiece rnd)
                with game_over := true })
            else
              (({ g with board := g.board.removeFullRows } : Game).newPiece rnd).applyAction
                (spawnPiece g.board.removeFullRows rnd) a)) := by
  simp [Game.update, hover, hp]

theorem applyAction_conflict (g : Game) (p : Piece) (a : Action) (ncs : arr_4)
    (hn : p.getNextCoords a = some ncs) (hc : g.detectConflict ncs = some true) :
    g.applyAction p a
      = if a = Action.DOWN then
          (g.board.addPiece p).map (fun b => (true, { g with board := b, piece := none }))
        else some (true, { g with piece := some p }) := by
  simp [Game.applyAction, hn, hc]

theorem applyAction_free (g : Game) (p : Piece) (a : Action) (ncs : arr_4)
    (hn : p.getNextCoords a = some ncs) (hc : g.detectConflict ncs = some false) :
    g.applyAction p a = some (true, { g with piece := some (p.update a) }) := by
  simp [Game.applyAction, hn, hc]

theorem run_game_over (g : Game) (hover : g.game_over = true) :
    ∀ inputs : List (Action × Rand),
      g.run inputs = some (List.replicate inputs.length false, g)
  | [] => rfl
  | (a, rnd) :: rest => by
    have h1 : g.update a rnd = some (false, g) := by simp [Game.update, hover]
    simp only [Game.run, h1, Option.some_bind, run_game_over g hover rest, Option.map_some',
      List.length_cons, List.replicate_succ]

theorem getNextCoords_shift (p : Piece) (cs : arr_4) (a : Action) (d : Coord)
    (h : p.getCoords = some cs) (hd : Tetris.update p.bottom_center p.orientation a
      = (p.bottom_center.add d, p.orientation)) :
    p.getNextCoords a = some (cs.map (fun c => c.add d)) := by
  unfold Piece.getCoords getCoords at h
  unfold Piece.getNextCoords getCoords
  rw [hd]
  cases hm : coord_map_at p.type p.orientation with
  | none => simp [hm] at h
  | some m =>
    simp only [hm, Option.map_some', Option.some.injEq] at h ⊢
    subst h
    simp only [arr_4.map, Coord.add, arr_4.mk.injEq, Coord.mk.injEq]
    refine ⟨⟨?_, ?_⟩, ⟨?_, ?_⟩, ⟨?_, ?_⟩, ⟨?_, ?_⟩⟩ <;> ring

theorem spawnPiece_getCoords_defined (b : Board) (rnd : Rand) :
    ∃ cs, (spawnPiece b rnd).getCoords = some cs := by
  have hr := tmod_four_range (rnd.r_orientation : Int) (by omega)
  obtain ⟨m, hm⟩ := coord_map_at_defined (PieceType.static_cast (rnd.r_type % NUM_SHAPES))
    _ hr.1 hr.2
  exact ⟨_, by simp [Piece.getCoords, getCoords, spawnPiece, hm]; rfl⟩

theorem pieceOk_of_some (g : Game) (p : Piece) (hp : g.piece = some p) (h : g.pieceOk) :
    ∃ cs, p.getCoords = some cs ∧ ∀ c ∈ cs.toList, g.board.inBounds c := by
  unfold Game.pieceOk at h
  rw [hp] at h
  cases hcs : p.getCoords with
  | none => simp [hcs] at h
  | some cs => exact ⟨cs, rfl, by simpa [hcs] using h⟩

theorem pieceOk_intro (g : Game) (p : Piece) (cs : arr_4) (hp : g.piece = some p)
    (hcs : p.getCoords = some cs) (hin : ∀ c ∈ cs.toList, g.board.inBounds c) : g.pieceOk := by
  unfold Game.pieceOk
  rw [hp]
  simp only [hcs]
  exact hin

theorem inBounds_of_no_conflict (b : Board) (hok : b.rowsOk) (cs : List Coord)
    (h : detectConflictLoop b cs = some false) : ∀ c ∈ cs, b.inBounds c := by
  obtain ⟨r, hr, hiff⟩ := detectConflictLoop_spec b hok cs
  rw [h] at hr
  cases hr
  intro c hc
  have hno : ¬ (c.x < 0 ∨ c.x ≥ b.getWidth ∨ c.y ≥ b.getHeight) := by
    intro hbad
    have : false = true := hiff.mpr ⟨c, hc, by
      rcases hbad with hbad | hbad | hbad
      · exact Or.inl hbad
      · exact Or.inr (Or.inl hbad)
      · exact Or.inr (Or.inr (Or.inl hbad))⟩
    cases this
  simp only [Board.getWidth, Board.getHeight, not_or, not_lt, ge_iff_le, not_le] at hno
  exact hno

/-- Resolution of an action for a piece in bounds on a board satisfying the invariant:
the call returns true and the resulting state is again well formed. -/
theorem applyAction_wf (g : Game) (p : Piece) (a : Action) (cs : arr_4)
    (hok : g.board.rowsOk) (hover : g.game_over = false)
    (hcs : p.getCoords = some cs) (hin : ∀ c ∈ cs.toList, g.board.inBounds c) :
    ∃ g', g.applyAction p a = some (true, g') ∧ g'.wf ∧ g'.game_over = false ∧
      g'.board.height = g.board.height ∧ g'.board.width = g.board.width ∧
      g'.game_started = g.game_started := by
  obtain ⟨ncs, hn⟩ := getNextCoords_defined p cs a hcs
  obtain ⟨r, hr, _⟩ := detectConflictLoop_spec g.board hok ncs.toList
  have hr' : g.detectConflict ncs = some r := hr
  cases r with
  | false =>
    refine ⟨{ g with piece := some (p.update a) }, applyAction_free g p a ncs hn hr', ?_,
      hover, rfl, rfl, rfl⟩
    refine ⟨hok, fun _ => ?_⟩
    exact pieceOk_intro _ (p.update a) ncs rfl (by rw [getCoords_update]; exact hn)
      (inBounds_of_no_conflict g.board hok ncs.toList hr)
  | true =>
    by_cases ha : a = Action.DOWN
    · obtain ⟨b', hb', hb'ok, hh, hw, _⟩ := addPiece_spec g.board hok p cs hcs hin
      refine ⟨{ g with board := b', piece := none }, ?_, ⟨hb'ok, fun _ => ?_⟩, hover, hh, hw,
        rfl⟩
      · rw [applyAction_conflict g p a ncs hn hr', if_pos ha, hb']
        rfl
      · simp [Game.pieceOk]
    · refine ⟨{ g with piece := some p }, ?_, ⟨hok, fun _ => ?_⟩, hover, rfl, rfl, rfl⟩
      · rw [applyAction_conflict g p a ncs hn hr', if_neg ha]
      · exact pieceOk_intro _ p cs rfl hcs hin

/-- Totality and invariance of `Game::update` on well-formed states. -/
theorem update_wf (g : Game) (a : Action) (rnd : Rand) (h : g.wf) :
    ∃ b g', g.update a rnd = some (b, g') ∧ g'.wf ∧
      g'.board.height = g.board.height ∧ g'.board.width = g.board.width ∧
      g'.game_started = g.game_started := by
  cases hover : g.game_over with
  | true => exact ⟨false, g, by simp [Game.update, hover], h, rfl, rfl, rfl⟩
  | false =>
    have hok1 : g.board.removeFullRows.rowsOk := removeFullRows_rowsOk g.board h.1
    cases hp : g.piece with
    | some p =>
      obtain ⟨cs, hcs, hin⟩ := pieceOk_of_some g p hp (h.2 hover)
      obtain ⟨g', hg', hwf, _, hh, hw, hs⟩ :=
        applyAction_wf ({ g with board := g.board.removeFullRows } : Game) p a cs hok1 hover
          hcs hin
      exact ⟨true, g', by rw [update_of_piece g p a rnd hover hp]; exact hg', hwf, hh, hw, hs⟩
    | none =>
      obtain ⟨cs, hcs⟩ := spawnPiece_getCoords_defined g.board.removeFullRows rnd
      obtain ⟨r, hr, _⟩ := detectConflictLoop_spec g.board.removeFullRows hok1 cs.toList
      have hr' : (({ g with board := g.board.removeFullRows } : Game).newPiece
          rnd).detectConflict cs = some r := hr
      cases r with
      | true =>
        refine ⟨false, { (({ g with board := g.board.removeFullRows } : Game).newPiece rnd)
          with game_over := true }, ?_, ⟨hok1, fun hc => by simp at hc⟩, rfl, rfl, rfl⟩
        rw [update_of_no_piece g a rnd hover hp, hcs]
        simp only [Option.some_bind, hr', if_true]
      | false =>
        obtain ⟨g', hg', hwf, _, hh, hw, hs⟩ :=
          applyAction_wf (({ g with board := g.board.removeFullRows } : Game).newPiece rnd)
            (spawnPiece g.board.removeFullRows rnd) a cs hok1 hover hcs
            (inBounds_of_no_conflict _ hok1 cs.toList hr)
        refine ⟨true, g', ?_, hwf, hh, hw, hs⟩
        rw [update_of_no_piece g a rnd hover hp, hcs]
        simp only [Option.some_bind, hr']
        exact hg'

theorem applyAction_result (g : Game) (p : Piece) (a : Action) (b : Bool) (g' : Game)
    (h : g.applyAction p a = some (b, g')) :
    b = true ∧ g'.game_over = g.game_over ∧
      (g'.board = g.board ∨
        (a = Action.DOWN ∧ g'.piece = none ∧ g.board.addPiece p = some g'.board)) := by
  unfold Game.applyAction at h
  cases hn : p.getNextCoords a with
  | none => simp [hn] at h
  | some ncs =>
    cases hc : g.detectConflict ncs with
    | none => simp [hn, hc] at h
    | some r =>
      cases r with
      | false =>
        simp only [hn, hc, Option.some_bind, Bool.not_false, if_true, Option.some.injEq,
          Prod.mk.injEq] at h
        obtain ⟨h1, h2⟩ := h
        subst h2
        exact ⟨h1.symm, rfl, Or.inl rfl⟩
      | true =>
        by_cases ha : a = Action.DOWN
        · subst ha
          cases hb : g.board.addPiece p with
          | none => simp [hn, hc, hb] at h
          | some b' =>
            simp only [hn, hc, Option.some_bind, Bool.not_true, hb, Option.map_some',
              Option.some.injEq, Prod.mk.injEq] at h
            simp only [Bool.false_eq_true, if_false, if_true, Option.some.injEq,
              Prod.mk.injEq] at h
            obtain ⟨h1, h2⟩ := h
            subst h2
            exact ⟨h1.symm, rfl, Or.inr ⟨rfl, rfl, rfl⟩⟩
        · simp only [hn, hc, Option.some_bind, Bool.not_true, Bool.false_eq_true, if_false,
            if_neg ha, Option.some.injEq, Prod.mk.injEq] at h
          obtain ⟨h1, h2⟩ := h
          subst h2
          exact ⟨h1.symm, rfl, Or.inl rfl⟩

theorem length_filter_add_length_filter_not {α : Type} (p : α → Bool) (l : List α) :
    (l.filter p).length + (l.filter (fun a => !p a)).length = l.length := by
  induction l with
  | nil => rfl
  | cons x xs ih =>
    by_cases hx : p x = true
    · simp [List.filter_cons, hx]; omega
    · simp [List.filter_cons, hx]; omega

theorem removeFullRows_getNumRows (b : Board) (h : b.rowsOk) :
    b.removeFullRows.getNumRows
      = b.getNumRows - ((b.rows.filter BoardRow.isFull).length : Int) := by
  have h1 := removeFullRows_rows_of_width b (fun r hr => (h r hr).1)
  have h2 := length_filter_add_length_filter_not BoardRow.isFull b.rows
  simp only [Board.getNumRows, h1]
  omega

theorem update_boardOutcome (g : Game) (a : Action) (rnd : Rand) (hwf : g.wf)
    (hover : g.game_over = false) :
    ∃ b g', g.update a rnd = some (b, g') ∧ g'.wf ∧ g.boardOutcome a rnd g' := by
  obtain ⟨b, g', h, hwf', _⟩ := update_wf g a rnd hwf
  refine ⟨b, g', h, hwf', ?_⟩
  have hcount := removeFullRows_getNumRows g.board hwf.1
  cases hp : g.piece with
  | some p =>
    rw [update_of_piece g p a rnd hover hp] at h
    obtain ⟨_, h2, h3⟩ := applyAction_result _ p a b g' h
    rcases h3 with h3 | ⟨ha, hpn, hadd⟩
    · exact Or.inl ⟨h3, by rw [h3]; exact hcount⟩
    · exact Or.inr ⟨ha, hpn, by rw [h2]; exact hover, p, Or.inl hp, hadd⟩
  | none =>
    rw [update_of_no_piece g a rnd hover hp] at h
    cases hcs : (spawnPiece g.board.removeFullRows rnd).getCoords with
    | none => simp [hcs] at h
    | some cs =>
      cases hc : (({ g with board := g.board.removeFullRows } : Game).newPiece
          rnd).detectConflict cs with
      | none => simp [hcs, hc] at h
      | some r =>
        cases r with
        | true =>
          simp only [hcs, hc, Option.some_bind, if_true, Option.some.injEq,
            Prod.mk.injEq] at h
          obtain ⟨_, h2⟩ := h
          subst h2
          exact Or.inl ⟨rfl, hcount⟩
        | false =>
          simp only [hcs, hc, Option.some_bind, Bool.false_eq_true, if_false] at h
          obtain ⟨_, h2, h3⟩ := applyAction_result _ _ a b g' h
          rcases h3 with h3 | ⟨ha, hpn, hadd⟩
          · exact Or.inl ⟨h3, by rw [h3]; exact hcount⟩
          · exact Or.inr ⟨ha, hpn, by rw [h2]; exact hover, _, Or.inr ⟨hp, rfl⟩, hadd⟩

/-- Without a full row `Board::removeFullRows` changes nothing; this is the situation of
every state in which a piece is active after an `update` call, since the call clears the
full rows first and a lock releases the piece. -/
theorem removeFullRows_of_no_full (b : Board) (h : b.rowsOk)
    (hfull : ∀ r ∈ b.rows, r.isFull = false) : b.removeFullRows = b := by
  have h1 := removeFullRows_rows_of_width b (fun r hr => (h r hr).1)
  have h2 : b.rows.filter (fun r => !r.isFull) = b.rows :=
    List.filter_eq_self.mpr (fun r hr => by simp [hfull r hr])
  cases b with
  | mk height width rows =>
    simp only [Board.removeFullRows, Board.mk.injEq, true_and] at h1 ⊢
    rw [h1]
    exact h2

theorem coord_map_length (t : PieceType) : (coord_map t).length = 4 := by
  cases t <;> rfl

theorem coord_map_offsets (t : PieceType) :
    ∀ m ∈ coord_map t, ∀ c ∈ m.toList, -1 ≤ c.x ∧ c.x ≤ 2 ∧ -3 ≤ c.y ∧ c.y ≤ 0 := by
  cases t <;> decide

theorem coord_map_nodup (t : PieceType) : ∀ m ∈ coord_map t, m.toList.Nodup := by
  cases t <;> decide

theorem coord_map_at_mem (t : PieceType) (o : Int) (m : arr_4)
    (h : coord_map_at t o = some m) : m ∈ coord_map t := by
  unfold coord_map_at at h
  by_cases h0 : o < 0
  · simp [h0] at h
  · rw [if_neg h0] at h
    exact List.getElem?_mem h

theorem toList_map (f : Coord → Coord) (m : arr_4) : (m.map f).toList = m.toList.map f := rfl

theorem getCoords_add (t : PieceType) (o : Int) (off d : Coord) :
    getCoords t o (off.add d) = (getCoords t o off).map (arr_4.map (fun c => c.add d)) := by
  unfold getCoords
  cases coord_map_at t o with
  | none => rfl
  | some m =>
    simp only [Option.map_some', Option.some.injEq, arr_4.map, Coord.add, arr_4.mk.injEq,
      Coord.mk.injEq]
    refine ⟨⟨?_, ?_⟩, ⟨?_, ?_⟩, ⟨?_, ?_⟩, ⟨?_, ?_⟩⟩ <;> ring

theorem getCoords_cells (p : Piece) (cs : arr_4) (h : p.getCoords = some cs) :
    ∃ m ∈ coord_map p.type, cs.toList = m.toList.map (fun c => c.add p.bottom_center) := by
  unfold Piece.getCoords getCoords at h
  cases hm : coord_map_at p.type p.orientation with
  | none => simp [hm] at h
  | some m =>
    simp only [hm, Option.map_some', Option.some.injEq] at h
    subst h
    exact ⟨m, coord_map_at_mem _ _ _ hm, rfl⟩

theorem add_injective (off : Coord) : Function.Injective (fun c : Coord => c.add off) := by
  intro a b h
  cases a; cases b
  simp only [Coord.add, Coord.mk.injEq] at h ⊢
  omega

theorem getCoords_nodup (p : Piece) (cs : arr_4) (h : p.getCoords = some cs) :
    cs.toList.Nodup := by
  obtain ⟨m, hm, hcs⟩ := getCoords_cells p cs h
  rw [hcs]
  exact (coord_map_nodup p.type m hm).map (add_injective p.bottom_center)

theorem tdiv_two_bounds (w : Int) :
    (4 ≤ w → 2 ≤ Int.tdiv w 2 ∧ Int.tdiv w 2 + 1 < w) ∧ (w < 4 → Int.tdiv w 2 < 2) := by
  by_cases h0 : 0 ≤ w
  · rw [Int.tdiv_eq_ediv h0 (by decide)]
    constructor <;> intro h <;> omega
  · have h1 : Int.tdiv w 2 = -((-w) / 2) := by
      have h2 : w = -(-w) := by omega
      rw [h2, Int.neg_tdiv, Int.tdiv_eq_ediv (by omega) (by decide)]
      simp
    rw [h1]
    constructor <;> intro h <;> omega

/-- The lookup of `Board::getColor` at an in-bounds cell of a board whose rows hold `width`
cells: the row index is not negative, and the result is `EMPTY` for a row not stored, else
the stored cell. -/
theorem getColor_lookup (b : Board) (h : b.rowsHaveWidthCells) (x y : Int)
    (hx0 : 0 ≤ x) (hx1 : x < b.width) (hy : y < b.height) :
    0 ≤ b.height - y - 1 ∧
    ((b.height - y - 1 ≥ b.getNumRows ∧ b.getColor x y = some Color.EMPTY) ∨
     (b.height - y - 1 < b.getNumRows ∧
       ∃ r col, b.rows[(b.height - y - 1).toNat]? = some r ∧ r.colors[x.toNat]? = some col ∧
         b.getColor x y = some col)) := by
  refine ⟨by omega, ?_⟩
  by_cases h1 : b.height - y - 1 ≥ b.getNumRows
  · exact Or.inl ⟨h1, by simp only [Board.getColor, if_pos h1]⟩
  · right
    have h1' : b.height - y - 1 < (b.rows.length : Int) := by
      simp only [Board.getNumRows] at h1; omega
    have h2 : ¬ (b.height - y - 1 < 0) := by omega
    have h3 : (b.height - y - 1).toNat < b.rows.length := by omega
    have hr : b.rows[(b.height - y - 1).toNat]? = some b.rows[(b.height - y - 1).toNat] :=
      List.getElem?_eq_getElem h3
    have hlen := h _ (List.getElem?_mem hr)
    have h4 : x.toNat < (b.rows[(b.height - y - 1).toNat]).colors.length := by omega
    have h5 : ¬ (x < 0) := by omega
    refine ⟨by simp only [Board.getNumRows]; exact h1', _, _, hr, List.getElem?_eq_getElem h4, ?_⟩
    simp only [Board.getColor, if_neg h1, if_neg h2, hr, Option.some_bind, BoardRow.getColor,
      if_neg h5]
    exact List.getElem?_eq_getElem h4

theorem detectConflictLoop_defined (b : Board) (h : b.rowsHaveWidthCells) (cs : List Coord) :
    ∃ r, detectConflictLoop b cs = some r := by
  induction cs with
  | nil => exact ⟨false, rfl⟩
  | cons c rest ih =>
    by_cases hb : c.x < 0 ∨ c.x ≥ b.getWidth ∨ c.y ≥ b.getHeight
    · exact ⟨true, by simp only [detectConflictLoop, if_pos hb]⟩
    · have hb' := hb
      simp only [not_or, not_lt, ge_iff_le, not_le, Board.getWidth, Board.getHeight] at hb'
      obtain ⟨_, hlook⟩ := getColor_lookup b h c.x c.y hb'.1 hb'.2.1 hb'.2.2
      obtain ⟨col, hcol⟩ : ∃ col, b.getColorAt c = some col := by
        rcases hlook with ⟨_, h1⟩ | ⟨_, _, col, _, _, h1⟩
        · exact ⟨_, h1⟩
        · exact ⟨col, h1⟩
      by_cases he : col = Color.EMPTY
      · obtain ⟨r, hr⟩ := ih
        exact ⟨r, by simp [detectConflictLoop, hb, hcol, he, hr]⟩
      · exact ⟨true, by simp [detectConflictLoop, hb, hcol, he]⟩

theorem detectConflictProbes_inBounds (b : Board) (cs : List Coord) :
    ∀ c ∈ detectConflictProbes b cs, 0 ≤ c.x ∧ c.x < b.width ∧ c.y < b.height := by
  induction cs with
  | nil => intro c hc; simp [detectConflictProbes] at hc
  | cons c0 rest ih =>
    intro c hc
    by_cases hb : c0.x < 0 ∨ c0.x ≥ b.getWidth ∨ c0.y ≥ b.getHeight
    · simp [detectConflictProbes, hb] at hc
    · simp only [detectConflictProbes, if_neg hb, List.mem_cons] at hc
      rcases hc with rfl | hc
      · simp only [not_or, not_lt, ge_iff_le, not_le, Board.getWidth, Board.getHeight] at hb
        exact hb
      · cases hcol : b.getColorAt c0 with
        | none => simp [hcol] at hc
        | some col =>
          by_cases he : col = Color.EMPTY
          · simp only [hcol, he, ne_eq, not_true_eq_false, if_false] at hc
            exact ih c hc
          · simp [hcol, he] at hc

theorem filter_length_set (c : Color) :
    ∀ (l : List Color) (i : Nat), l[i]? = some Color.EMPTY →
      ((l.set i c).filter (fun c => decide (c ≠ Color.EMPTY))).length
        = (l.filter (fun c => decide (c ≠ Color.EMPTY))).length
          + (if c = Color.EMPTY then 0 else 1)
  | [], i, h => by simp at h
  | x :: xs, 0, h => by
    simp only [List.getElem?_cons_zero, Option.some.injEq] at h
    subst h
    by_cases hc : c = Color.EMPTY <;> simp [List.set, List.filter_cons, hc]
  | x :: xs, i + 1, h => by
    simp only [List.getElem?_cons_succ] at h
    have ih := filter_length_set c xs i h
    simp only [List.set_cons_succ, List.filter_cons]
    split
    · simp only [List.length_cons, ih]; omega
    · exact ih

theorem setColor_countOk (r r' : BoardRow) (x : Int) (c : Color)
    (hr : r.countOk) (he : r.colors[x.toNat]? = some Color.EMPTY)
    (hs : r.setColor x c = some r') : r'.countOk := by
  have hset : ¬ (x < 0 ∨ (r.colors.length : Int) ≤ x) := by
    intro hc
    simp [BoardRow.setColor, hc] at hs
  simp only [BoardRow.setColor, if_neg hset, Option.some.injEq] at hs
  subst hs
  unfold BoardRow.countOk BoardRow.countFilled at hr ⊢
  simp only
  rw [filter_length_set c r.colors x.toNat he, hr]
  by_cases hc : c = Color.EMPTY <;> simp [hc]

theorem emptyRow_countOk (w : Int) : (emptyRow w).countOk := by
  unfold BoardRow.countOk BoardRow.countFilled emptyRow
  simp [List.filter_replicate]

theorem addCell_countsOk (b : Board) (h : b.rowsOk) (hc : b.countsOk) (color : Color)
    (c : Coord) (hx0 : 0 ≤ c.x) (hx1 : c.x < b.width) (hy : c.y < b.height)
    (he : b.getColorAt c = some Color.EMPTY) (b' : Board)
    (hb' : b.addCell color c = some b') : b'.countsOk := by
  have hw : 0 ≤ b.width := by omega
  set k := (b.height - c.y - 1 + 1 - b.getNumRows).toNat with hk
  set b1 : Board := { b with rows := b.rows ++ List.replicate k (emptyRow b.width) } with hb1
  have hb1ok : b1.rowsOk := grow_rowsOk b h hw k
  have hb1c : b1.countsOk := by
    intro r hr
    simp only [hb1, List.mem_append] at hr
    rcases hr with hr | hr
    · exact hc r hr
    · rw [List.eq_of_mem_replicate hr]
      exact emptyRow_countOk b.width
  have hidx : ¬ (b.height - c.y - 1 < 0) := by omega
  have hlen : (b.height - c.y - 1).toNat < b1.rows.length := by
    simp only [hb1, List.length_append, List.length_replicate, hk, Board.getNumRows]
    omega
  obtain ⟨r, hr⟩ : ∃ r, b1.rows[(b.height - c.y - 1).toNat]? = some r :=
    ⟨_, List.getElem?_eq_getElem hlen⟩
  have hrlen := (hb1ok r (List.getElem?_mem hr)).2
  have hset : ¬ (c.x < 0 ∨ (r.colors.length : Int) ≤ c.x) := by
    have : b1.width = b.width := rfl
    omega
  obtain ⟨r', hr'⟩ : ∃ r', r.setColor c.x color = some r' := by
    simp only [BoardRow.setColor, if_neg hset]
    exact ⟨_, rfl⟩
  have heq : b.addCell color c
      = some { b1 with rows := b1.rows.set (b.height - c.y - 1).toNat r' } := by
    unfold Board.addCell
    simp only
    rw [growRows_eq b.width _ hw k b.rows hk]
    simp only [Option.some_bind, if_neg hidx]
    have hr2 : (b.rows ++ List.replicate k (emptyRow b.width))[(b.height - c.y - 1).toNat]?
        = some r := hr
    rw [hr2]
    simp only [Option.some_bind, hr', Option.map_some', hb1]
  rw [heq] at hb'
  have hb'' := Option.some.inj hb'
  subst hb''
  have he1 : b1.getColor c.x c.y = some Color.EMPTY := by
    rw [grow_getColor b k c.x c.y hx0 hx1 hy]
    exact he
  have hcell : r.colors[c.x.toNat]? = some Color.EMPTY := by
    have hx : ¬ (c.x < 0) := by omega
    have hn1 : ¬ (b1.height - c.y - 1 ≥ b1.getNumRows) := by
      have h1 : b1.height = b.height := rfl
      have h2 : b1.getNumRows = (b1.rows.length : Int) := rfl
      rw [h1, h2]
      omega
    have hr1 : b1.rows[(b1.height - c.y - 1).toNat]? = some r := hr
    have hidx1 : ¬ (b1.height - c.y - 1 < 0) := hidx
    unfold Board.getColor at he1
    simp only at he1
    rw [if_neg hn1, if_neg hidx1, hr1] at he1
    simp only [Option.some_bind, BoardRow.getColor, if_neg hx] at he1
    exact he1
  have hr'ok : r'.countOk :=
    setColor_countOk r r' c.x color (hb1c r (List.getElem?_mem hr)) hcell hr'
  intro q hq
  rcases List.mem_or_eq_of_mem_set hq with hq | hq
  · exact hb1c q hq
  · rw [hq]; exact hr'ok

theorem addCells_countsOk (color : Color) (cs : List Coord) :
    ∀ (b : Board), b.rowsOk → b.countsOk → cs.Nodup → (∀ c ∈ cs, b.inBounds c) →
      (∀ c ∈ cs, b.getColorAt c = some Color.EMPTY) →
      ∀ b', Board.addCells color b cs = some b' → b'.countsOk := by
  induction cs with
  | nil =>
    intro b _ hc _ _ _ b' hb'
    simp only [Board.addCells, Option.some.injEq] at hb'
    subst hb'
    exact hc
  | cons c rest ih =>
    intro b h hc hnd hin hemp b' hb'
    have hcin := hin c (by simp)
    obtain ⟨b1, h1, h1ok, h1h, h1w, h1c⟩ := addCell_spec b h color c hcin.1 hcin.2.1 hcin.2.2
    have h1cnt : b1.countsOk :=
      addCell_countsOk b h hc color c hcin.1 hcin.2.1 hcin.2.2 (hemp c (by simp)) b1 h1
    simp only [Board.addCells, h1, Option.some_bind] at hb'
    have hnd' := List.nodup_cons.mp hnd
    refine ih b1 h1ok h1cnt hnd'.2 ?_ ?_ b' hb'
    · intro c' hc'
      have := hin c' (by simp [hc'])
      unfold Board.inBounds at this ⊢
      rw [h1h, h1w]
      exact this
    · intro c' hc'
      have hc'in := hin c' (by simp [hc'])
      have hne : ¬ (c'.x = c.x ∧ c'.y = c.y) := by
        rintro ⟨hx, hy⟩
        apply hnd'.1
        have : c' = c := by
          cases c; cases c'; simp only [Coord.mk.injEq]; exact ⟨hx, hy⟩
        rw [← this]
        exact hc'
      have := h1c c'.x c'.y hc'in.1 hc'in.2.1 hc'in.2.2
      rw [if_neg hne] at this
      unfold Board.getColorAt
      rw [this]
      exact hemp c' (by simp [hc'])

theorem addPiece_countsOk (b : Board) (h : b.rowsOk) (hc : b.countsOk) (p : Piece)
    (cs : arr_4) (hcs : p.getCoords = some cs) (hin : ∀ c ∈ cs.toList, b.inBounds c)
    (hemp : ∀ c ∈ cs.toList, b.getColorAt c = some Color.EMPTY) (b' : Board)
    (hb' : b.addPiece p = some b') : b'.countsOk := by
  simp only [Board.addPiece, hcs, Option.some_bind] at hb'
  exact addCells_countsOk p.getColor cs.toList b h hc (getCoords_nodup p cs hcs) hin hemp b' hb'

theorem applyAction_cases (g : Game) (p : Piece) (a : Action) (b : Bool) (g' : Game)
    (h : g.applyAction p a = some (b, g')) :
    b = true ∧ ∃ ncs, p.getNextCoords a = some ncs ∧
      ((g.detectConflict ncs = some false ∧ g' = { g with piece := some (p.update a) }) ∨
       (g.detectConflict ncs = some true ∧ a = Action.DOWN ∧
          ∃ b', g.board.addPiece p = some b' ∧ g' = { g with board := b', piece := none }) ∨
       (g.detectConflict ncs = some true ∧ a ≠ Action.DOWN ∧
          g' = { g with piece := some p })) := by
  cases hn : p.getNextCoords a with
  | none => simp [Game.applyAction, hn] at h
  | some ncs =>
    cases hc : g.detectConflict ncs with
    | none => simp [Game.applyAction, hn, hc] at h
    | some r =>
      cases r with
      | false =>
        rw [applyAction_free g p a ncs hn hc] at h
        simp only [Option.some.injEq, Prod.mk.injEq] at h
        exact ⟨h.1.symm, ncs, rfl, Or.inl ⟨hc, h.2.symm⟩⟩
      | true =>
        rw [applyAction_conflict g p a ncs hn hc] at h
        by_cases ha : a = Action.DOWN
        · rw [if_pos ha] at h
          cases hb : g.board.addPiece p with
          | none => simp [hb] at h
          | some b' =>
            simp only [hb, Option.map_some', Option.some.injEq, Prod.mk.injEq] at h
            exact ⟨h.1.symm, ncs, rfl, Or.inr (Or.inl ⟨hc, ha, b', rfl, h.2.symm⟩)⟩
        · rw [if_neg ha] at h
          simp only [Option.some.injEq, Prod.mk.injEq] at h
          exact ⟨h.1.symm, ncs, rfl, Or.inr (Or.inr ⟨hc, ha, h.2.symm⟩)⟩

theorem update_cases (g : Game) (a : Action) (rnd : Rand) (b : Bool) (g' : Game)
    (hover : g.game_over = false) (h : g.update a rnd = some (b, g')) :
    (∃ p, g.piece = some p ∧
      ({ g with board := g.board.removeFullRows } : Game).applyAction p a = some (b, g')) ∨
    (g.piece = none ∧ ∃ cs, (spawnPiece g.board.removeFullRows rnd).getCoords = some cs ∧
      ((detectConflictLoop g.board.removeFullRows cs.toList = some true ∧ b = false ∧
          g' = { board := g.board.removeFullRows,
                 piece := some (spawnPiece g.board.removeFullRows rnd),
                 game_started := g.game_started, game_over := true }) ∨
       (detectConflictLoop g.board.removeFullRows cs.toList = some false ∧
          ({ board := g.board.removeFullRows,
             piece := some (spawnPiece g.board.removeFullRows rnd),
             game_started := g.game_started, game_over := g.game_over } : Game).applyAction
            (spawnPiece g.board.removeFullRows rnd) a = some (b, g')))) := by
  cases hp : g.piece with
  | some p =>
    rw [update_of_piece g p a rnd hover hp] at h
    exact Or.inl ⟨p, rfl, h⟩
  | none =>
    rw [update_of_no_piece g a rnd hover hp] at h
    right
    refine ⟨rfl, ?_⟩
    cases hcs : (spawnPiece g.board.removeFullRows rnd).getCoords with
    | none => simp [hcs] at h
    | some cs =>
      refine ⟨cs, rfl, ?_⟩
      simp only [hcs, Option.some_bind, Game.detectConflict, Game.newPiece] at h
      cases hc : detectConflictLoop g.board.removeFullRows cs.toList with
      | none => simp [hc] at h
      | some r =>
        cases r with
        | true =>
          simp only [hc, Option.some_bind, if_true, Option.some.injEq, Prod.mk.injEq] at h
          exact Or.inl ⟨rfl, h.1.symm, h.2.symm⟩
        | false =>
          simp only [hc, Option.some_bind, Bool.false_eq_true, if_false] at h
          exact Or.inr ⟨rfl, h⟩

theorem update_pivot_y (p : Piece) (a : Action) (h : -1 ≤ p.bottom_center.y) :
    -1 ≤ (p.update a).bottom_center.y := by
  cases a <;> simp only [Piece.update, Tetris.update, Coord.add] <;> omega

theorem growRows_length (width row_idx : Int) :
    ∀ (fuel : Nat) (rows rows' : List BoardRow),
      growRows width row_idx fuel rows = some rows' → rows'.length ≤ rows.length + fuel := by
  intro fuel
  induction fuel with
  | zero =>
    intro rows rows' h
    simp only [growRows, Option.some.injEq] at h
    subst h
    omega
  | succ n ih =>
    intro rows rows' h
    by_cases h1 : row_idx ≥ (rows.length : Int)
    · simp only [growRows, if_pos h1] at h
      cases hi : BoardRow.init width with
      | none => simp [hi] at h
      | some r =>
        simp only [hi, Option.some_bind] at h
        have := ih _ _ h
        simp only [List.length_append, List.length_singleton] at this
        omega
    · simp only [growRows, if_neg h1, Option.some.injEq] at h
      subst h
      omega

theorem addCell_length (b b' : Board) (color : Color) (c : Coord)
    (h : b.addCell color c = some b') :
    b'.height = b.height ∧ b'.width = b.width ∧
      ∀ N : Int, (b.rows.length : Int) ≤ N → b.height - c.y ≤ N →
        (b'.rows.length : Int) ≤ N := by
  unfold Board.addCell at h
  simp only at h
  obtain ⟨idx, hidx⟩ : ∃ idx, idx = b.height - c.y - 1 := ⟨_, rfl⟩
  obtain ⟨f, hf⟩ : ∃ f, f = (b.height - c.y - 1 + 1 - b.getNumRows).toNat := ⟨_, rfl⟩
  rw [← hf, ← hidx] at h
  cases hg : growRows b.width idx f b.rows with
  | none =>
    rw [hg] at h
    simp at h
  | some rows =>
    have hlen := growRows_length _ _ _ _ _ hg
    rw [hg] at h
    simp only [Option.some_bind] at h
    by_cases hi : idx < 0
    · rw [if_pos hi] at h
      simp at h
    · rw [if_neg hi] at h
      cases hr : rows[idx.toNat]? with
      | none =>
        rw [hr] at h
        simp at h
      | some r =>
        rw [hr] at h
        cases hs : r.setColor c.x color with
        | none =>
          simp only [Option.some_bind, hs, Option.map_none'] at h
          simp at h
        | some r' =>
          simp only [hs, Option.some_bind, Option.map_some', Option.some.injEq] at h
          subst h
          refine ⟨rfl, rfl, fun N h1 h2 => ?_⟩
          simp only [List.length_set]
          simp only [Board.getNumRows] at hf
          omega

theorem addCells_length (color : Color) (cs : List Coord) :
    ∀ (b b' : Board), Board.addCells color b cs = some b' →
      b'.height = b.height ∧ b'.width = b.width ∧
        ∀ N : Int, (b.rows.length : Int) ≤ N → (∀ c ∈ cs, b.height - c.y ≤ N) →
          (b'.rows.length : Int) ≤ N := by
  induction cs with
  | nil =>
    intro b b' h
    simp only [Board.addCells, Option.some.injEq] at h
    subst h
    exact ⟨rfl, rfl, fun N h1 _ => h1⟩
  | cons c rest ih =>
    intro b b' h
    cases h1 : b.addCell color c with
    | none => simp [Board.addCells, h1] at h
    | some b1 =>
      simp only [Board.addCells, h1, Option.some_bind] at h
      obtain ⟨hh1, hw1, hl1⟩ := addCell_length b b1 color c h1
      obtain ⟨hh2, hw2, hl2⟩ := ih b1 b' h
      refine ⟨by rw [hh2, hh1], by rw [hw2, hw1], fun N hN hcs => ?_⟩
      apply hl2 N (hl1 N hN (hcs c (by simp)))
      intro c' hc'
      rw [hh1]
      exact hcs c' (by simp [hc'])

theorem getCoords_y_lower (p : Piece) (cs : arr_4) (h : p.getCoords = some cs) :
    ∀ c ∈ cs.toList, p.bottom_center.y - 3 ≤ c.y ∧ c.y ≤ p.bottom_center.y := by
  obtain ⟨m, hm, hcs⟩ := getCoords_cells p cs h
  intro c hc
  rw [hcs] at hc
  obtain ⟨d, hd, rfl⟩ := List.mem_map.mp hc
  have := coord_map_offsets p.type m hm d hd
  simp only [Coord.add]
  omega

theorem addPiece_length (b b' : Board) (p : Piece) (hp : -1 ≤ p.bottom_center.y)
    (hl : (b.rows.length : Int) ≤ b.height + 4) (h : b.addPiece p = some b') :
    b'.height = b.height ∧ b'.width = b.width ∧ (b'.rows.length : Int) ≤ b.height + 4 := by
  unfold Board.addPiece at h
  cases hcs : p.getCoords with
  | none => simp [hcs] at h
  | some cs =>
    simp only [hcs, Option.some_bind] at h
    obtain ⟨hh, hw, hN⟩ := addCells_length p.getColor cs.toList b b' h
    refine ⟨hh, hw, hN _ hl (fun c hc => ?_)⟩
    have := (getCoords_y_lower p cs hcs c hc).1
    omega

theorem removeFullRows_length_le (b : Board) :
    b.removeFullRows.rows.length ≤ b.rows.length := by
  simp only [Board.removeFullRows, remove_if_full_eq_zipWith, List.length_zipWith]
  omega

theorem run_invariant (Inv : Game → Prop)
    (hstep : ∀ g a rnd b g', Inv g → g.update a rnd = some (b, g') → Inv g') :
    ∀ (inputs : List (Action × Rand)) (g : Game) (flags : List Bool) (g' : Game),
      Inv g → g.run inputs = some (flags, g') → Inv g'
  | [], g, flags, g', hg, h => by
    simp only [Game.run, Option.some.injEq, Prod.mk.injEq] at h
    rw [← h.2]
    exact hg
  | (a, rnd) :: rest, g, flags, g', hg, h => by
    cases hu : g.update a rnd with
    | none => simp [Game.run, hu] at h
    | some r =>
      obtain ⟨b, g1⟩ := r
      simp only [Game.run, hu, Option.some_bind] at h
      cases hr : Game.run g1 rest with
      | none => simp [hr] at h
      | some s =>
        obtain ⟨fl, g2⟩ := s
        simp only [hr, Option.map_some', Option.some.injEq, Prod.mk.injEq] at h
        rw [← h.2]
        exact run_invariant Inv hstep rest g1 fl g2 (hstep g a rnd b g1 hg hu) hr

theorem applyAction_bufferBound (h : Int) (g : Game) (p : Piece) (a : Action) (b : Bool)
    (g' : Game) (hh : g.board.height = h) (hl : (g.board.rows.length : Int) ≤ h + 4)
    (hp : -1 ≤ p.bottom_center.y) (hres : g.applyAction p a = some (b, g')) :
    g'.bufferBound h := by
  obtain ⟨_, ncs, _, hcase⟩ := applyAction_cases g p a b g' hres
  rcases hcase with ⟨_, rfl⟩ | ⟨_, _, b', hb', rfl⟩ | ⟨_, _, rfl⟩
  · refine ⟨hh, hl, fun q hq => ?_⟩
    simp only [Option.some.injEq] at hq
    rw [← hq]
    exact update_pivot_y p a hp
  · obtain ⟨h1, _, h3⟩ := addPiece_length g.board b' p hp (by rw [hh]; exact hl) hb'
    refine ⟨by rw [← hh]; exact h1, by rw [← hh]; exact h3, fun q hq => ?_⟩
    simp at hq
  · refine ⟨hh, hl, fun q hq => ?_⟩
    simp only [Option.some.injEq] at hq
    rw [← hq]
    exact hp

theorem update_bufferBound (h : Int) (g : Game) (a : Action) (rnd : Rand) (b : Bool)
    (g' : Game) (hg : g.bufferBound h) (hres : g.update a rnd = some (b, g')) :
    g'.bufferBound h := by
  cases hover : g.game_over with
  | true =>
    simp only [Game.update, hover, if_true, Option.some.injEq, Prod.mk.injEq] at hres
    rw [← hres.2]
    exact hg
  | false =>
    have hl1 : (g.board.removeFullRows.rows.length : Int) ≤ h + 4 := by
      have := removeFullRows_length_le g.board
      have := hg.2.1
      omega
    rcases update_cases g a rnd b g' hover hres with ⟨p, hp, happ⟩ | ⟨_, cs, _, hcase⟩
    · exact applyAction_bufferBound h ({ g with board := g.board.removeFullRows } : Game) p a
        b g' hg.1 hl1 (hg.2.2 p hp) happ
    · rcases hcase with ⟨_, _, rfl⟩ | ⟨_, happ⟩
      · refine ⟨hg.1, hl1, fun q hq => ?_⟩
        simp only [Option.some.injEq] at hq
        rw [← hq]
        simp [spawnPiece]
      · exact applyAction_bufferBound h
          ({ board := g.board.removeFullRows,
             piece := some (spawnPiece g.board.removeFullRows rnd),
             game_started := g.game_started, game_over := g.game_over } : Game)
          (spawnPiece g.board.removeFullRows rnd) a b g' hg.1 hl1 (by simp [spawnPiece]) happ

theorem start_bufferBound (h w : Int) (hh : 0 < h) (rnd : Rand) :
    ((Game.init h w).start rnd).bufferBound h := by
  refine ⟨rfl, ?_, fun q hq => ?_⟩
  · simp only [Game.start, Game.newPiece, Game.init, Board.init, List.length_nil]
    omega
  · simp only [Game.start, Game.newPiece, Option.some.injEq] at hq
    rw [← hq]
    simp [spawnPiece]

theorem run_bufferBound (h w : Int) (hh : 0 < h) (rnd0 : Rand)
    (inputs : List (Action × Rand)) (flags : List Bool) (g : Game)
    (hrun : Game.run ((Game.init h w).start rnd0) inputs = some (flags, g)) :
    g.bufferBound h :=
  run_invariant (Game.bufferBound h) (fun g a rnd b g' => update_bufferBound h g a rnd b g')
    inputs _ flags g (start_bufferBound h w hh rnd0) hrun

theorem removeFullRows_countsOk (b : Board) (h : b.rowsOk) (hc : b.countsOk) :
    b.removeFullRows.countsOk := by
  intro r hr
  rw [removeFullRows_rows_of_width b (fun r hr => (h r hr).1)] at hr
  exact hc r (List.mem_filter.mp hr).1

theorem removeFullRows_no_full (b : Board) (h : b.rowsOk) :
    ∀ r ∈ b.removeFullRows.rows, r.isFull = false := by
  intro r hr
  rw [removeFullRows_rows_of_width b (fun r hr => (h r hr).1)] at hr
  simpa using (List.mem_filter.mp hr).2

theorem no_conflict_cells (b : Board) (hok : b.rowsOk) (cs : List Coord)
    (h : detectConflictLoop b cs = some false) :
    ∀ c ∈ cs, b.inBounds c ∧ b.getColorAt c = some Color.EMPTY := by
  intro c hc
  have hin := inBounds_of_no_conflict b hok cs h c hc
  refine ⟨hin, ?_⟩
  obtain ⟨r, hr, hiff⟩ := detectConflictLoop_spec b hok cs
  rw [h] at hr
  cases hr
  obtain ⟨col, hcol⟩ := getColor_defined b hok c.x c.y hin.1 hin.2.1 hin.2.2
  have hcol' : b.getColorAt c = some col := hcol
  by_cases he : col = Color.EMPTY
  · rw [hcol', he]
  · have : false = true := hiff.mpr ⟨c, hc, Or.inr (Or.inr (Or.inr ⟨col, hcol', he⟩))⟩
    cases this

theorem no_conflict_of_cells (b : Board) (hok : b.rowsOk) (cs : List Coord)
    (h : ∀ c ∈ cs, b.inBounds c ∧ b.getColorAt c = some Color.EMPTY) :
    detectConflictLoop b cs = some false := by
  obtain ⟨r, hr, hiff⟩ := detectConflictLoop_spec b hok cs
  cases r with
  | false => exact hr
  | true =>
    obtain ⟨c, hc, hp⟩ := hiff.mp rfl
    obtain ⟨hin, hemp⟩ := h c hc
    unfold Board.inBounds at hin
    simp only [Board.getWidth, Board.getHeight] at hp
    rcases hp with hp | hp | hp | ⟨col, h1, h2⟩
    · omega
    · omega
    · omega
    · rw [hemp] at h1
      cases h1
      exact absurd rfl h2

theorem applyAction_consistent (h w : Int) (g : Game) (p : Piece) (a : Action) (b : Bool)
    (g' : Game) (cs : arr_4) (hh : g.board.height = h) (hw : g.board.width = w)
    (hok : g.board.rowsOk) (hcnt : g.board.countsOk)
    (hfull : ∀ r ∈ g.board.rows, r.isFull = false) (hcs : p.getCoords = some cs)
    (hin : ∀ c ∈ cs.toList, g.board.inBounds c)
    (hemp : ∀ c ∈ cs.toList, g.board.getColorAt c = some Color.EMPTY)
    (hres : g.applyAction p a = some (b, g')) : g'.consistent h w := by
  obtain ⟨_, ncs, hn, hcase⟩ := applyAction_cases g p a b g' hres
  rcases hcase with ⟨hc, rfl⟩ | ⟨_, _, b', hb', rfl⟩ | ⟨_, _, rfl⟩
  · have hcells := no_conflict_cells g.board hok ncs.toList hc
    have hg : (p.update a).getCoords = some ncs := by rw [getCoords_update]; exact hn
    refine ⟨hh, hw, ⟨hok, fun _ => ?_⟩, hcnt, fun _ q hq => ?_⟩
    · exact pieceOk_intro _ (p.update a) ncs rfl hg (fun c hc' => (hcells c hc').1)
    · simp only [Option.some.injEq] at hq
      subst hq
      exact ⟨hfull, ncs, hg, fun c hc' => (hcells c hc').2⟩
  · obtain ⟨b'', hb'', hb''ok, hh', hw', _⟩ := addPiece_spec g.board hok p cs hcs hin
    rw [hb'] at hb''
    cases hb''
    refine ⟨by rw [← hh]; exact hh', by rw [← hw]; exact hw', ⟨hb''ok, fun _ => ?_⟩,
      addPiece_countsOk g.board hok hcnt p cs hcs hin hemp b' hb', fun _ q hq => ?_⟩
    · simp [Game.pieceOk]
    · simp at hq
  · refine ⟨hh, hw, ⟨hok, fun _ => ?_⟩, hcnt, fun _ q hq => ?_⟩
    · exact pieceOk_intro _ p cs rfl hcs hin
    · simp only [Option.some.injEq] at hq
      subst hq
      exact ⟨hfull, cs, hcs, hemp⟩

theorem update_consistent (h w : Int) (g : Game) (a : Action) (rnd : Rand) (b : Bool)
    (g' : Game) (hg : g.consistent h w) (hres : g.update a rnd = some (b, g')) :
    g'.consistent h w := by
  obtain ⟨hh, hw, hwf, hcnt, hpiece⟩ := hg
  cases hover : g.game_over with
  | true =>
    simp only [Game.update, hover, if_true, Option.some.injEq, Prod.mk.injEq] at hres
    rw [← hres.2]
    exact ⟨hh, hw, hwf, hcnt, hpiece⟩
  | false =>
    have hok1 : g.board.removeFullRows.rowsOk := removeFullRows_rowsOk g.board hwf.1
    have hcnt1 : g.board.removeFullRows.countsOk := removeFullRows_countsOk g.board hwf.1 hcnt
    have hfull1 := removeFullRows_no_full g.board hwf.1
    rcases update_cases g a rnd b g' hover hres with ⟨p, hp, happ⟩ | ⟨_, cs, hcs, hcase⟩
    · obtain ⟨hfull, cs, hcs, hemp⟩ := hpiece hover p hp
      obtain ⟨cs', hcs', hin⟩ := pieceOk_of_some g p hp (hwf.2 hover)
      rw [hcs] at hcs'
      cases hcs'
      have hid : g.board.removeFullRows = g.board := removeFullRows_of_no_full g.board hwf.1 hfull
      exact applyAction_consistent h w ({ g with board := g.board.removeFullRows } : Game) p a
        b g' cs hh hw hok1 hcnt1 hfull1 hcs (by rw [hid]; exact hin)
        (by rw [hid]; exact hemp) happ
    · rcases hcase with ⟨_, _, rfl⟩ | ⟨hc, happ⟩
      · exact ⟨hh, hw, ⟨hok1, fun hc => by simp at hc⟩, hcnt1, fun hc => by simp at hc⟩
      · have hcells := no_conflict_cells g.board.removeFullRows hok1 cs.toList hc
        exact applyAction_consistent h w
          ({ board := g.board.removeFullRows,
             piece := some (spawnPiece g.board.removeFullRows rnd),
             game_started := g.game_started, game_over := g.game_over } : Game)
          (spawnPiece g.board.removeFullRows rnd) a b g' cs hh hw hok1 hcnt1 hfull1 hcs
          (fun c hc' => (hcells c hc').1) (fun c hc' => (hcells c hc').2) happ

theorem spawnPiece_inBounds (b : Board) (rnd : Rand) (cs : arr_4) (hw : 4 ≤ b.width)
    (hh : 1 ≤ b.height) (hcs : (spawnPiece b rnd).getCoords = some cs) :
    ∀ c ∈ cs.toList, b.inBounds c := by
  obtain ⟨m, hm, hl⟩ := getCoords_cells _ cs hcs
  intro c hc
  rw [hl] at hc
  obtain ⟨d, hd, rfl⟩ := List.mem_map.mp hc
  have hoff := coord_map_offsets _ m hm d hd
  have hdiv := (tdiv_two_bounds b.width).1 hw
  simp only [Board.inBounds, Coord.add, spawnPiece, Board.getWidth]
  omega

theorem start_consistent (h w : Int) (hw : 4 ≤ w) (hh : 1 ≤ h) (rnd : Rand) :
    ((Game.init h w).start rnd).consistent h w := by
  obtain ⟨cs, hcs⟩ := spawnPiece_getCoords_defined (Board.init h w) rnd
  have hin := spawnPiece_inBounds (Board.init h w) rnd cs hw hh hcs
  have hrows : ∀ r ∈ (Board.init h w).rows, False := by
    intro r hr
    simp [Board.init] at hr
  refine ⟨rfl, rfl, ⟨fun r hr => (hrows r hr).elim, fun _ => ?_⟩,
    fun r hr => (hrows r hr).elim, fun _ q hq => ?_⟩
  · exact pieceOk_intro _ (spawnPiece (Board.init h w) rnd) cs rfl hcs hin
  · simp only [Game.start, Game.newPiece, Option.some.injEq] at hq
    subst hq
    refine ⟨fun r hr => (hrows r hr).elim, cs, hcs, fun c hc => ?_⟩
    have hb := hin c hc
    simp only [Board.inBounds, Board.init] at hb
    show (Board.init h w).getColor c.x c.y = some Color.EMPTY
    have hge : (Board.init h w).height - c.y - 1 ≥ (Board.init h w).getNumRows := by
      simp only [Board.init, Board.getNumRows, List.length_nil]
      omega
    simp only [Board.getColor, if_pos hge]

theorem run_defined (inputs : List (Action × Rand)) :
    ∀ g : Game, g.wf → ∃ flags g', g.run inputs = some (flags, g') := by
  induction inputs with
  | nil => intro g _; exact ⟨[], g, rfl⟩
  | cons x rest ih =>
    intro g hg
    obtain ⟨a, rnd⟩ := x
    obtain ⟨b, g1, h1, hwf1, _⟩ := update_wf g a rnd hg
    obtain ⟨fl, g2, h2⟩ := ih g1 hwf1
    exact ⟨b :: fl, g2, by simp only [Game.run, h1, Option.some_bind, h2, Option.map_some']⟩

theorem run_consistent (h w : Int) (hw : 4 ≤ w) (hh : 1 ≤ h) (rnd0 : Rand)
    (inputs : List (Action × Rand)) :
    ∃ flags g, Game.run ((Game.init h w).start rnd0) inputs = some (flags, g) ∧
      g.consistent h w := by
  have h0 := start_consistent h w hw hh rnd0
  obtain ⟨flags, g, hrun⟩ := run_defined inputs _ h0.2.2.1
  exact ⟨flags, g, hrun,
    run_invariant (Game.consistent h w)
      (fun g a rnd b g' => update_consistent h w g a rnd b g') inputs _ flags g h0 hrun⟩

theorem isFull_iff_all_filled (r : BoardRow) (w : Int) (hc : r.countOk) (hw : r.width = w)
    (hl : (r.colors.length : Int) = w) :
    r.isFull = true ↔ ∀ c ∈ r.colors, c ≠ Color.EMPTY := by
  unfold BoardRow.countOk BoardRow.countFilled at hc
  have hiff := List.filter_length_eq_length (p := fun c => decide (c ≠ Color.EMPTY))
    (l := r.colors)
  simp only [decide_eq_true_eq] at hiff
  rw [← hiff]
  simp only [BoardRow.isFull, beq_iff_eq]
  constructor
  · intro h1
    omega
  · intro h1
    omega

theorem isLineFull_iff (b : Board) (y : Int)
    (hrow : ∀ r ∈ b.rows, (r.isFull = true ↔ ∀ c ∈ r.colors, c ≠ Color.EMPTY)) :
    b.isLineFull y = some true ↔
      0 ≤ b.height - y - 1 ∧ ∃ r, b.rows[(b.height - y - 1).toNat]? = some r ∧
        ∀ c ∈ r.colors, c ≠ Color.EMPTY := by
  unfold Board.isLineFull
  simp only [Board.getNumRows]
  by_cases h1 : b.height - y - 1 ≥ (b.rows.length : Int)
  · rw [if_pos h1]
    constructor
    · intro hc; simp at hc
    · rintro ⟨h0, r, hr, _⟩
      obtain ⟨hlt, _⟩ := List.getElem?_eq_some.mp hr
      omega
  · rw [if_neg h1]
    by_cases h2 : b.height - y - 1 < 0
    · rw [if_pos h2]
      constructor
      · intro hc; simp at hc
      · rintro ⟨h0, _⟩; omega
    · rw [if_neg h2]
      have hlt : (b.height - y - 1).toNat < b.rows.length := by omega
      have hr : b.rows[(b.height - y - 1).toNat]? = some b.rows[(b.height - y - 1).toNat] :=
        List.getElem?_eq_getElem hlt
      rw [hr]
      simp only [Option.map_some', Option.some.injEq]
      rw [hrow _ (List.getElem?_mem hr)]
      constructor
      · intro hall
        exact ⟨by omega, _, rfl, hall⟩
      · rintro ⟨_, r, hr', hall⟩
        cases hr'
        exact hall

/-! ## Verified properties -/

/-- C1. Once `game_over` is set, `Game::update` returns false and leaves the whole state
(flags, board rows, piece) exactly as it was, for every action and every random draw, and
so does any sequence of further calls. -/
theorem update_game_over_noop (g : Game) (hover : g.game_over = true) :
    (∀ a rnd, g.update a rnd = some (false, g)) ∧
    (∀ inputs : List (Action × Rand),
      g.run inputs = some (List.replicate inputs.length false, g)) :=
  ⟨fun a rnd => by simp [Game.update, hover], run_game_over g hover⟩

/-- Instance of C1 on the finished game `overState`: one call and a run of three calls. -/
theorem update_game_over_noop_witness :
    overState.game_over = true ∧
    overState.update Action.ROTATE ⟨5, 2, 1⟩ = some (false, overState) ∧
    overState.run [(Action.DOWN, ⟨0, 0, 0⟩), (Action.LEFT, ⟨1, 1, 1⟩), (Action.ROTATE, ⟨2, 3, 4⟩)]
      = some ([false, false, false], overState) :=
  ⟨rfl, (update_game_over_noop overState rfl).1 _ _, (update_game_over_noop overState rfl).2 _⟩

/-- C2. Whenever `Game::update` returns, the flag it returns is the negation of
`gameOver()` after the call, and it is false exactly when the game was already over at
entry or the piece spawned in this call conflicts with the line-cleared board; on every
well-formed state the call does return. -/
theorem update_flag_eq_not_gameOver (g : Game) (a : Action) (rnd : Rand) :
    (∀ b g', g.update a rnd = some (b, g') →
      b = !g'.gameOver ∧
      (b = false ↔ (g.game_over = true ∨ (g.piece = none ∧
        ∃ cs, (spawnPiece g.board.removeFullRows rnd).getCoords = some cs ∧
          (({ g with board := g.board.removeFullRows } : Game).newPiece rnd).detectConflict cs
            = some true)))) ∧
    (g.wf → ∃ b g', g.update a rnd = some (b, g')) := by
  refine ⟨?_, fun hwf => ?_⟩
  · intro b g' h
    cases hover : g.game_over with
    | true =>
      simp only [Game.update, hover, if_true, Option.some.injEq, Prod.mk.injEq] at h
      obtain ⟨h1, h2⟩ := h
      subst h1 h2
      simp [Game.gameOver, hover]
    | false =>
      cases hp : g.piece with
      | some p =>
        rw [update_of_piece g p a rnd hover hp] at h
        obtain ⟨h1, h2, _⟩ := applyAction_result _ p a b g' h
        subst h1
        have h3 : g'.game_over = false := by rw [h2]; exact hover
        simp [Game.gameOver, h3]
      | none =>
        rw [update_of_no_piece g a rnd hover hp] at h
        cases hcs : (spawnPiece g.board.removeFullRows rnd).getCoords with
        | none => simp [hcs] at h
        | some cs =>
          cases hc : (({ g with board := g.board.removeFullRows } : Game).newPiece
              rnd).detectConflict cs with
          | none => simp [hcs, hc] at h
          | some r =>
            cases r with
            | true =>
              simp only [hcs, hc, Option.some_bind, if_true, Option.some.injEq,
                Prod.mk.injEq] at h
              obtain ⟨h1, h2⟩ := h
              subst h1 h2
              simp only [Game.detectConflict, Game.newPiece] at hc
              simp [Game.gameOver, Game.detectConflict, Game.newPiece, hc]
            | false =>
              simp only [hcs, hc, Option.some_bind, Bool.false_eq_true, if_false] at h
              obtain ⟨h1, h2, _⟩ := applyAction_result _ _ a b g' h
              subst h1
              have h3 : g'.game_over = false := by rw [h2]; exact hover
              simp only [Game.detectConflict, Game.newPiece] at hc
              simp [Game.gameOver, Game.detectConflict, Game.newPiece, h3, hc]
  · obtain ⟨b, g', h, _⟩ := update_wf g a rnd hwf
    exact ⟨b, g', h⟩

/-- Instance of C2 on `blockedSpawn`, a well-formed state whose spawn collides. -/
theorem update_flag_eq_not_gameOver_witness :
    blockedSpawn.wf ∧
    ∃ b g', blockedSpawn.update Action.DOWN ⟨3, 0, 0⟩ = some (b, g') ∧ b = !g'.gameOver := by
  refine ⟨by decide, ?_⟩
  have h := update_flag_eq_not_gameOver blockedSpawn Action.DOWN ⟨3, 0, 0⟩
  obtain ⟨b, g', hb⟩ := h.2 (by decide)
  exact ⟨b, g', hb, (h.1 b g' hb).1⟩

/-- C4. In a running game with an active piece, when the cells the piece would take after
LEFT, RIGHT or ROTATE conflict with the line-cleared board, `Game::update` returns true,
keeps the piece as it was (pivot, orientation, type, color) and leaves as board exactly
`removeFullRows` of the board at entry; the flags are unchanged. -/
theorem update_rejects_blocked_move (g : Game) (p : Piece) (a : Action) (rnd : Rand)
    (ncs : arr_4) (hover : g.game_over = false) (hp : g.piece = some p)
    (ha : a = Action.LEFT ∨ a = Action.RIGHT ∨ a = Action.ROTATE)
    (hn : p.getNextCoords a = some ncs)
    (hc : ({ g with board := g.board.removeFullRows } : Game).detectConflict ncs = some true) :
    ∃ g', g.update a rnd = some (true, g') ∧ g'.piece = some p ∧
      g'.board = g.board.removeFullRows ∧ g'.game_over = false ∧
      g'.game_started = g.game_started := by
  have hne : a ≠ Action.DOWN := by
    rcases ha with rfl | rfl | rfl <;> decide
  refine ⟨{ g with board := g.board.removeFullRows }, ?_, hp, rfl, hover, rfl⟩
  rw [update_of_piece g p a rnd hover hp, applyAction_conflict _ p a ncs hn hc, if_neg hne]
  simp [hp]

/-- Instance of C4: LEFT right after the start of `Game(4,4)`, with the I piece against the left
wall. -/
theorem update_rejects_blocked_move_witness :
    startState.game_over = false ∧
    startState.piece = some ⟨⟨1, -1⟩, PieceType.SHAPE_I, 0, Color.RED⟩ ∧
    ∃ g', startState.update Action.LEFT ⟨0, 0, 0⟩ = some (true, g') ∧
      g'.piece = some ⟨⟨1, -1⟩, PieceType.SHAPE_I, 0, Color.RED⟩ ∧
      g'.board = startState.board.removeFullRows ∧ g'.game_over = false ∧
      g'.game_started = startState.game_started :=
  ⟨rfl, rfl, update_rejects_blocked_move startState ⟨⟨1, -1⟩, PieceType.SHAPE_I, 0, Color.RED⟩
    Action.LEFT ⟨0, 0, 0⟩ ⟨⟨-1, -2⟩, ⟨0, -2⟩, ⟨1, -2⟩, ⟨2, -2⟩⟩ rfl rfl (Or.inl rfl)
    (by decide) (by decide)⟩

/-- C5. In a running game on a board satisfying the representation invariant, when the
active piece has a cell with `x = 0`, `Game::update` with LEFT returns true and keeps the
piece as it was, so its pivot and orientation are those before the call: the shifted
cells contain one with `x = -1`, which `detectConflict` reports. -/
theorem update_left_at_wall_rejected (g : Game) (p : Piece) (cs : arr_4) (rnd : Rand)
    (hover : g.game_over = false) (hp : g.piece = some p) (hok : g.board.rowsOk)
    (hcs : p.getCoords = some cs) (hx : ∃ c ∈ cs.toList, c.x = 0) :
    ∃ g' p', g.update Action.LEFT rnd = some (true, g') ∧ g'.piece = some p' ∧
      p'.bottom_center = p.bottom_center ∧ p'.orientation = p.orientation ∧ p' = p ∧
      (∃ c ∈ cs.toList, (c.add ⟨-1, 0⟩).x = -1) := by
  have hn := getNextCoords_shift p cs Action.LEFT ⟨-1, 0⟩ hcs rfl
  have hok1 : ({ g with board := g.board.removeFullRows } : Game).board.rowsOk :=
    removeFullRows_rowsOk g.board hok
  obtain ⟨r, hr, hiff⟩ := detectConflictLoop_spec _ hok1
    (cs.map (fun c => c.add ⟨-1, 0⟩)).toList
  obtain ⟨c, hc, hc0⟩ := hx
  have hmem : c.add ⟨-1, 0⟩ ∈ (cs.map (fun c => c.add ⟨-1, 0⟩)).toList := by
    simp only [arr_4.toList, arr_4.map, List.mem_cons, List.mem_singleton, List.not_mem_nil,
      or_false] at hc ⊢
    rcases hc with rfl | rfl | rfl | rfl <;> simp
  have hrt : r = true := by
    rw [hiff]
    exact ⟨_, hmem, Or.inl (by simp [Coord.add, hc0])⟩
  subst hrt
  refine ⟨{ g with board := g.board.removeFullRows }, p, ?_, hp, rfl, rfl, rfl,
    ⟨c, hc, by simp [Coord.add, hc0]⟩⟩
  rw [update_of_piece g p _ rnd hover hp, applyAction_conflict _ p _ _ hn hr]
  simp [hp]

/-- Instance of C5: the I piece of `startState` has the cell `(0, -2)`, and LEFT leaves its
pivot at `(1, -1)`. -/
theorem update_left_at_wall_rejected_witness :
    startState.game_over = false ∧ startState.board.rowsOk ∧
    (∃ c ∈ [(⟨0, -2⟩ : Coord), ⟨1, -2⟩, ⟨2, -2⟩, ⟨3, -2⟩], c.x = 0) ∧
    ∃ g' p', startState.update Action.LEFT ⟨0, 0, 0⟩ = some (true, g') ∧ g'.piece = some p' ∧
      p'.bottom_center = ⟨1, -1⟩ ∧ p'.orientation = 0 := by
  refine ⟨rfl, by decide, by decide, ?_⟩
  obtain ⟨g', p', h1, h2, h3, h4, _⟩ :=
    update_left_at_wall_rejected startState ⟨⟨1, -1⟩, PieceType.SHAPE_I, 0, Color.RED⟩
      ⟨⟨0, -2⟩, ⟨1, -2⟩, ⟨2, -2⟩, ⟨3, -2⟩⟩ ⟨0, 0, 0⟩ rfl rfl (by decide) (by decide)
      (by decide)
  exact ⟨g', p', h1, h2, h3, h4⟩

/-- C6. In a running game on a board satisfying the representation invariant, with an
active piece whose four cells are inside the bounds: when the cells one row lower conflict
with the line-cleared board, `Game::update` with DOWN returns true and locks the piece.
Afterwards there is no active piece and, for every in-bounds `(x, y)`, `Board::getColor`
gives the color of the piece on its four cells and the color of the line-cleared board
everywhere else. -/
theorem update_down_locks_piece (g : Game) (p : Piece) (cs : arr_4) (rnd : Rand)
    (hover : g.game_over = false) (hp : g.piece = some p) (hok : g.board.rowsOk)
    (hcs : p.getCoords = some cs)
    (hin : ∀ c ∈ cs.toList, 0 ≤ c.x ∧ c.x < g.board.getWidth ∧ c.y < g.board.getHeight)
    (hc : ({ g with board := g.board.removeFullRows } : Game).detectConflict
      (cs.map (fun c => c.add ⟨0, 1⟩)) = some true) :
    ∃ g', g.update Action.DOWN rnd = some (true, g') ∧ g'.getPiece = none ∧
      g'.gameOver = false ∧
      ∀ x y, 0 ≤ x → x < g.board.getWidth → y < g.board.getHeight →
        g'.getBoard.getColor x y
          = if (⟨x, y⟩ : Coord) ∈ cs.toList then some p.getColor
            else g.board.removeFullRows.getColor x y := by
  have hn := getNextCoords_shift p cs Action.DOWN ⟨0, 1⟩ hcs rfl
  have hok1 : g.board.removeFullRows.rowsOk := removeFullRows_rowsOk g.board hok
  obtain ⟨b', hb', _, _, _, hcol⟩ := addPiece_spec g.board.removeFullRows hok1 p cs hcs hin
  refine ⟨{ g with board := b', piece := none }, ?_, rfl, hover, hcol⟩
  rw [update_of_piece g p _ rnd hover hp, applyAction_conflict _ p _ _ hn hc, if_pos rfl]
  simp only [hb', Option.map_some']

/-- Instance of C6 on `lockReady`: DOWN locks the I piece into the bottom row and leaves the row
above empty. -/
theorem update_down_locks_piece_witness :
    lockReady.game_over = false ∧ lockReady.board.rowsOk ∧
    ∃ g', lockReady.update Action.DOWN ⟨0, 0, 0⟩ = some (true, g') ∧ g'.getPiece = none ∧
      g'.getBoard.getColor 2 3 = some Color.RED ∧ g'.getBoard.getColor 2 2 = some Color.EMPTY := by
  refine ⟨rfl, by decide, ?_⟩
  obtain ⟨g', h1, h2, _, h4⟩ :=
    update_down_locks_piece lockReady ⟨⟨1, 4⟩, PieceType.SHAPE_I, 0, Color.RED⟩
      ⟨⟨0, 3⟩, ⟨1, 3⟩, ⟨2, 3⟩, ⟨3, 3⟩⟩ ⟨0, 0, 0⟩ rfl rfl (by decide) (by decide) (by decide)
      (by decide)
  refine ⟨g', h1, h2, ?_, ?_⟩
  · rw [h4 2 3 (by decide) (by decide) (by decide)]; decide
  · rw [h4 2 2 (by decide) (by decide) (by decide)]; decide

/-- C7. On a board whose rows carry the board width, `Board::removeFullRows` keeps exactly
the rows whose filled count differs from the board width, in their original order and
unchanged (it is the order-preserving filter of the row list), whatever the number and
position of the full rows; height and width are untouched, every kept row is a row of the
board at entry, and no kept row is full. -/
theorem removeFullRows_eq_filter (b : Board) (hw : ∀ r ∈ b.rows, r.width = b.width) :
    b.removeFullRows.rows = b.rows.filter (fun r => decide (r.num_filled ≠ b.width)) ∧
    b.removeFullRows.height = b.height ∧ b.removeFullRows.width = b.width ∧
    b.removeFullRows.rows.Sublist b.rows ∧
    (∀ r ∈ b.removeFullRows.rows, r.isFull = false) ∧
    (∀ r ∈ b.rows, r.num_filled ≠ b.width → r ∈ b.removeFullRows.rows) := by
  have h1 := removeFullRows_rows_of_width b hw
  have h2 : b.rows.filter (fun r => !r.isFull)
      = b.rows.filter (fun r => decide (r.num_filled ≠ b.width)) := by
    apply List.filter_congr
    intro r hr
    by_cases hq : r.num_filled = b.width <;> simp [BoardRow.isFull, hw r hr, hq]
  refine ⟨by rw [h1, h2], rfl, rfl, ?_, ?_, ?_⟩
  · rw [h1]; exact List.filter_sublist _
  · intro r hr
    rw [h1] at hr
    simpa using (List.mem_filter.mp hr).2
  · intro r hr hne
    rw [h1, h2]
    exact List.mem_filter.mpr ⟨hr, by simpa using hne⟩

/-- Instance of C7 on Scenario D: of two full rows around a row with one cell set, only that row
remains, now at row index 0 (`y = 3`). -/
theorem removeFullRows_eq_filter_witness :
    (∀ r ∈ scenarioD.rows, r.width = scenarioD.width) ∧
    scenarioD.removeFullRows.rows
      = [ { width := 2, colors := [Color.GREEN, Color.EMPTY], num_filled := 1 } ] ∧
    scenarioD.removeFullRows.getColor 0 3 = some Color.GREEN ∧
    scenarioD.getColor 0 2 = some Color.GREEN :=
  ⟨by decide, (removeFullRows_eq_filter scenarioD (by decide)).1, by decide, by decide⟩

/-- C8, as stated, fails. In `Game(2,4)`, reachable play leads to a lock that completes
two rows, still stored and reported full on return; the following `update(DOWN)` removes
them but also locks the L piece it spawns, which cannot descend, so the row count stays 4
instead of dropping by the two full rows. -/
theorem following_update_row_count_counterexample :
    Game.run ((Game.init 2 4).start ⟨3, 0, 0⟩) stackInputs
      = some (List.replicate 12 true, stackLocked) ∧
    stackLocked.board.isLineFull 1 = some true ∧
    stackLocked.board.isLineFull 0 = some true ∧
    (stackLocked.board.rows.filter BoardRow.isFull).length = 2 ∧
    stackLocked.board.getNumRows = 4 ∧
    stackLocked.update Action.DOWN ⟨1, 1, 2⟩ = some (true, stackAfter) ∧
    stackAfter.board.getNumRows = 4 ∧
    ¬ (stackAfter.board.getNumRows = stackLocked.board.getNumRows - 2) := by
  decide

/-- C8, amended. On every well-formed running state `Game::update` returns, and its board
is `removeFullRows` of the board at entry (exactly the rows that were not full, in order),
or that board with a piece locked into it when the action is DOWN; nothing is cleared
after the lock, so a row completed by it is still stored on return. The following call
obeys the same rule: it removes the full rows, and when it does not itself lock a piece
its row count is the previous one minus the number of full rows. -/
theorem update_line_clear_delayed (g : Game) (a : Action) (rnd : Rand) (hwf : g.wf)
    (hover : g.game_over = false) :
    g.board.removeFullRows.rows = g.board.rows.filter (fun r => !r.isFull) ∧
    ∃ b g', g.update a rnd = some (b, g') ∧ g.boardOutcome a rnd g' ∧
      (g'.game_over = false → ∀ a2 rnd2, ∃ b2 g2, g'.update a2 rnd2 = some (b2, g2) ∧
        g'.boardOutcome a2 rnd2 g2) := by
  refine ⟨removeFullRows_rows_of_width g.board (fun r hr => (hwf.1 r hr).1), ?_⟩
  obtain ⟨b, g', h, hwf', hout⟩ := update_boardOutcome g a rnd hwf hover
  refine ⟨b, g', h, hout, fun hover' a2 rnd2 => ?_⟩
  obtain ⟨b2, g2, h2, _, hout2⟩ := update_boardOutcome g' a2 rnd2 hwf' hover'
  exact ⟨b2, g2, h2, hout2⟩

/-- Instance of C8 (amended) on Scenario A, `Game(4,4)` with a horizontal I piece: five DOWN
moves reach `lockReady`, the next DOWN locks the piece into a full row that is still stored and
reported full, and the call after that removes it. -/
theorem update_line_clear_delayed_witness :
    lockReady.wf ∧ lockReady.game_over = false ∧
    Game.run startState (List.replicate 5 (Action.DOWN, ⟨0, 0, 0⟩))
      = some (List.replicate 5 true, lockReady) ∧
    lockReady.update Action.DOWN ⟨0, 0, 0⟩ = some (true, lockDone) ∧
    lockDone.board.isLineFull 3 = some true ∧ lockDone.board.getNumRows = 1 ∧
    (∃ b g', lockReady.update Action.DOWN ⟨0, 0, 0⟩ = some (b, g') ∧
      lockReady.boardOutcome Action.DOWN ⟨0, 0, 0⟩ g') ∧
    lockDone.update Action.DOWN ⟨0, 0, 0⟩ = some (true, lockCleared) ∧
    lockCleared.board.getNumRows = lockDone.board.getNumRows - 1 := by
  refine ⟨by decide, by decide, by decide, by decide, by decide, by decide, ?_, by decide,
    by decide⟩
  · obtain ⟨_, b, g', h, hout, _⟩ :=
      update_line_clear_delayed lockReady Action.DOWN ⟨0, 0, 0⟩ (by decide) (by decide)
    exact ⟨b, g', h, hout⟩

/-- C10. For a piece whose orientation is one of 0..3, four successive `Piece::update`
calls with ROTATE give back the same piece: same orientation, same pivot, and hence the
same four cells. -/
theorem rotate_four_times (p : Piece) (h0 : 0 ≤ p.orientation) (h3 : p.orientation < 4) :
    let q := (((p.update Action.ROTATE).update Action.ROTATE).update Action.ROTATE).update
      Action.ROTATE
    q.orientation = p.orientation ∧ q.bottom_center = p.bottom_center ∧ q = p ∧
      q.getCoords = p.getCoords := by
  have h0i : @LE.le Int _ 0 p.orientation := h0
  have h3i : @LT.lt Int _ p.orientation 4 := h3
  have hcases : @Eq Int p.orientation 0 ∨ @Eq Int p.orientation 1 ∨
      @Eq Int p.orientation 2 ∨ @Eq Int p.orientation 3 := by omega
  obtain ⟨c, t, o, col⟩ := p
  simp only at hcases
  rcases hcases with rfl | rfl | rfl | rfl <;>
    exact ⟨rfl, rfl, rfl, rfl⟩

/-- Instance of C10 for a T piece with orientation 3. -/
theorem rotate_four_times_witness :
    let p : Piece := ⟨⟨3, 5⟩, PieceType.SHAPE_T, 3, Color.CYAN⟩
    (0 : Int) ≤ 3 ∧ (3 : Int) < 4 ∧
    (((p.update Action.ROTATE).update Action.ROTATE).update Action.ROTATE).update
      Action.ROTATE = p ∧
    (p.update Action.ROTATE).orientation = 0 := by
  intro p
  exact ⟨by decide, by decide,
    (rotate_four_times ⟨⟨3, 5⟩, PieceType.SHAPE_T, 3, Color.CYAN⟩ (by decide) (by decide)).2.2.1,
    rfl⟩

/-- C12, as stated, fails: in `Game(1,4)` the start draws a vertical I piece, the first DOWN
moves it to the rows `-3 .. 0`, the second DOWN locks it there, and four rows are stored on
a board of height 1. -/
theorem rows_exceed_height_counterexample :
    Game.run ((Game.init 1 4).start ⟨0, 1, 0⟩)
        [(Action.DOWN, ⟨0, 0, 0⟩), (Action.DOWN, ⟨0, 0, 0⟩)]
      = some ([true, true], towerState) ∧
    towerState.board.getHeight = 1 ∧ towerState.board.getNumRows = 4 ∧
    ¬ (towerState.board.getNumRows ≤ towerState.board.getHeight) := by
  decide

/-- C12, amended. In every state reached from `Game(height, width)` with positive height by
`start()` and any sequence of `update` calls, with any actions and random draws, the board
keeps its height and stores at most `height + 4` rows: a piece can lock with cells in the
four rows above the top, where it is spawned. For `width >= 4` every such sequence of calls
returns. -/
theorem rows_le_height_plus_four (h w : Int) (hh : 0 < h) (rnd0 : Rand)
    (inputs : List (Action × Rand)) :
    (∀ flags g, Game.run ((Game.init h w).start rnd0) inputs = some (flags, g) →
      g.board.getHeight = h ∧ g.board.getNumRows ≤ g.board.getHeight + 4) ∧
    (4 ≤ w → ∃ flags g, Game.run ((Game.init h w).start rnd0) inputs = some (flags, g)) := by
  refine ⟨fun flags g hrun => ?_, fun hw => ?_⟩
  · obtain ⟨h1, h2, _⟩ := run_bufferBound h w hh rnd0 inputs flags g hrun
    exact ⟨h1, by simp only [Board.getNumRows, Board.getHeight]; rw [h1]; exact h2⟩
  · exact run_defined inputs _ (start_consistent h w hw (by omega) rnd0).2.2.1

/-- Instance of C12 (amended) on the run of `Game(1,4)` that reaches `towerState`. -/
theorem rows_le_height_plus_four_witness :
    (0 : Int) < 1 ∧
    Game.run ((Game.init 1 4).start ⟨0, 1, 0⟩)
        [(Action.DOWN, ⟨0, 0, 0⟩), (Action.DOWN, ⟨0, 0, 0⟩)]
      = some ([true, true], towerState) ∧
    towerState.board.getNumRows ≤ towerState.board.getHeight + 4 :=
  ⟨by decide, by decide,
   ((rows_le_height_plus_four 1 4 (by decide) ⟨0, 1, 0⟩
      [(Action.DOWN, ⟨0, 0, 0⟩), (Action.DOWN, ⟨0, 0, 0⟩)]).1 [true, true] towerState
      (by decide)).2⟩

/-- C13, as stated, fails: `BoardRow::setColor` adds one to the count whenever the written
color is not `EMPTY`, also when the cell was already set. On `overlapBoard`, whose row
satisfies the invariant, adding the in-range O piece `overlapPiece` writes the set cell
`(1, 1)` again: the bottom row then has `num_filled = 3` with two cells set. -/
theorem addPiece_overlap_counterexample :
    overlapBoard.rowsOk ∧ overlapBoard.countsOk ∧
    overlapPiece.getCoords = some ⟨⟨1, 0⟩, ⟨2, 0⟩, ⟨1, 1⟩, ⟨2, 1⟩⟩ ∧
    (∀ c ∈ [(⟨1, 0⟩ : Coord), ⟨2, 0⟩, ⟨1, 1⟩, ⟨2, 1⟩],
      0 ≤ c.x ∧ c.x < overlapBoard.width ∧ c.y < overlapBoard.height) ∧
    overlapBoard.addPiece overlapPiece = some overlapResult ∧
    ¬ overlapResult.countsOk ∧
    (∃ r ∈ overlapResult.rows, r.num_filled = 3 ∧ r.countFilled = 2) := by
  decide

/-- C13, amended. On a board satisfying the representation invariant whose rows all have
`num_filled` equal to their number of non-`EMPTY` cells, `Board::addPiece` of a piece whose
cells are in range and `EMPTY` on the board returns a board on which every row again
satisfies that equality. A single `setColor` adds one to the count exactly when the color
written is not `EMPTY`, whatever the cell held before. -/
theorem addPiece_preserves_counts (b : Board) (p : Piece) (cs : arr_4) (hok : b.rowsOk)
    (hcount : b.countsOk) (hcs : p.getCoords = some cs)
    (hin : ∀ c ∈ cs.toList, 0 ≤ c.x ∧ c.x < b.getWidth ∧ c.y < b.getHeight)
    (hemp : ∀ c ∈ cs.toList, b.getColorAt c = some Color.EMPTY) :
    (∃ b', b.addPiece p = some b' ∧ ∀ r ∈ b'.rows, r.num_filled = (r.countFilled : Int)) ∧
    (∀ (r r' : BoardRow) (x : Int) (c : Color), r.setColor x c = some r' →
      r'.num_filled = r.num_filled + (if c = Color.EMPTY then 0 else 1)) := by
  constructor
  · obtain ⟨b', hb', _⟩ := addPiece_spec b hok p cs hcs hin
    exact ⟨b', hb', addPiece_countsOk b hok hcount p cs hcs hin hemp b' hb'⟩
  · intro r r' x c hs
    have hset : ¬ (x < 0 ∨ (r.colors.length : Int) ≤ x) := by
      intro hc
      simp [BoardRow.setColor, hc] at hs
    simp only [BoardRow.setColor, if_neg hset, Option.some.injEq] at hs
    subst hs
    rfl

/-- Instance of C13 (amended): `besidePiece` lies on empty cells of `overlapBoard`, and after
`addPiece` the bottom row has `num_filled = 3` with three cells set. -/
theorem addPiece_preserves_counts_witness :
    overlapBoard.rowsOk ∧ overlapBoard.countsOk ∧
    besidePiece.getCoords = some ⟨⟨2, 0⟩, ⟨3, 0⟩, ⟨2, 1⟩, ⟨3, 1⟩⟩ ∧
    (∃ b', overlapBoard.addPiece besidePiece = some b' ∧
      ∀ r ∈ b'.rows, r.num_filled = (r.countFilled : Int)) ∧
    (overlapBoard.addPiece besidePiece).map (fun b' => b'.rows.map BoardRow.num_filled)
      = some [3, 2] :=
  ⟨by decide, by decide, by decide,
   (addPiece_preserves_counts overlapBoard besidePiece ⟨⟨2, 0⟩, ⟨3, 0⟩, ⟨2, 1⟩, ⟨3, 1⟩⟩
      (by decide) (by decide) (by decide) (by decide) (by decide)).1,
   by decide⟩

/-- C15. Every piece type has four shape-table entries, one per orientation 0..3, and each
of the four offsets of every entry lies in the 4x4 grid around the bottom-center pivot:
`-1 <= x <= 2` and `-3 <= y <= 0`. -/
theorem coord_map_fits_grid (t : PieceType) :
    (coord_map t).length = 4 ∧
    ∀ o : Int, 0 ≤ o → o < 4 → ∃ m, coord_map_at t o = some m ∧
      ∀ c ∈ m.toList, -1 ≤ c.x ∧ c.x ≤ 2 ∧ -3 ≤ c.y ∧ c.y ≤ 0 := by
  refine ⟨coord_map_length t, fun o h0 h4 => ?_⟩
  obtain ⟨m, hm⟩ := coord_map_at_defined t o h0 h4
  exact ⟨m, hm, coord_map_offsets t m (coord_map_at_mem t o m hm)⟩

/-- Instance of C15 for the T piece in orientation 1, whose entry reaches the left column
and the third row of the grid. -/
theorem coord_map_fits_grid_witness :
    (0 : Int) ≤ 1 ∧ (1 : Int) < 4 ∧
    coord_map_at PieceType.SHAPE_T 1 = some ⟨⟨-1, -2⟩, ⟨-1, -1⟩, ⟨0, -1⟩, ⟨-1, 0⟩⟩ ∧
    ∃ m, coord_map_at PieceType.SHAPE_T 1 = some m ∧
      ∀ c ∈ m.toList, -1 ≤ c.x ∧ c.x ≤ 2 ∧ -3 ≤ c.y ∧ c.y ≤ 0 :=
  ⟨by decide, by decide, by decide,
    (coord_map_fits_grid PieceType.SHAPE_T).2 1 (by decide) (by decide)⟩

/-- C16. From `Game(height, width)` with `width >= 4` and `height >= 1`, `start()` followed
by any sequence of `update` calls always returns, and in the state reached, when the game
is not over and a piece is active, the four cells of the piece do not conflict: each has
`0 <= x < width`, `y < height` and an `EMPTY` board cell, so `detectConflict` on them is
false and a lock writes only empty cells. -/
theorem active_piece_does_not_conflict (h w : Int) (hw : 4 ≤ w) (hh : 1 ≤ h) (rnd0 : Rand)
    (inputs : List (Action × Rand)) :
    ∃ flags g, Game.run ((Game.init h w).start rnd0) inputs = some (flags, g) ∧
      g.board.getHeight = h ∧ g.board.getWidth = w ∧
      (g.gameOver = false → ∀ p, g.getPiece = some p →
        ∃ cs, p.getCoords = some cs ∧ g.detectConflict cs = some false ∧
          ∀ c ∈ cs.toList, 0 ≤ c.x ∧ c.x < w ∧ c.y < h ∧
            g.board.getColorAt c = some Color.EMPTY) := by
  obtain ⟨flags, g, hrun, hh', hw', hwf, _, hpiece⟩ := run_consistent h w hw hh rnd0 inputs
  refine ⟨flags, g, hrun, hh', hw', fun hover p hp => ?_⟩
  obtain ⟨_, cs, hcs, hemp⟩ := hpiece hover p hp
  obtain ⟨cs', hcs', hin⟩ := pieceOk_of_some g p hp (hwf.2 hover)
  rw [hcs] at hcs'
  cases hcs'
  refine ⟨cs, hcs, no_conflict_of_cells g.board hwf.1 cs.toList
    (fun c hc => ⟨hin c hc, hemp c hc⟩), fun c hc => ?_⟩
  have hb := hin c hc
  unfold Board.inBounds at hb
  rw [hh', hw'] at hb
  exact ⟨hb.1, hb.2.1, hb.2.2, hemp c hc⟩

/-- Instance of C16 on `Game(4,4)`: after the start and five DOWN calls the state is
`lockReady`, whose I piece lies on the empty bottom row. -/
theorem active_piece_does_not_conflict_witness :
    (4 : Int) ≤ 4 ∧ (1 : Int) ≤ 4 ∧
    Game.run ((Game.init 4 4).start ⟨0, 0, 0⟩) (List.replicate 5 (Action.DOWN, ⟨0, 0, 0⟩))
      = some (List.replicate 5 true, lockReady) ∧
    lockReady.detectConflict ⟨⟨0, 3⟩, ⟨1, 3⟩, ⟨2, 3⟩, ⟨3, 3⟩⟩ = some false ∧
    ∃ flags g,
      Game.run ((Game.init 4 4).start ⟨0, 0, 0⟩) (List.replicate 5 (Action.DOWN, ⟨0, 0, 0⟩))
        = some (flags, g) ∧
      g.board.getHeight = 4 ∧ g.board.getWidth = 4 ∧
      (g.gameOver = false → ∀ p, g.getPiece = some p →
        ∃ cs, p.getCoords = some cs ∧ g.detectConflict cs = some false ∧
          ∀ c ∈ cs.toList, 0 ≤ c.x ∧ c.x < 4 ∧ c.y < 4 ∧
            g.board.getColorAt c = some Color.EMPTY) :=
  ⟨by decide, by decide, by decide, by decide,
   active_piece_does_not_conflict 4 4 (by decide) (by decide) ⟨0, 0, 0⟩
     (List.replicate 5 (Action.DOWN, ⟨0, 0, 0⟩))⟩

/-- C17. From `Game(height, width)` with `width >= 4` and `height >= 1`, `start()` followed
by any sequence of `update` calls always returns, and in the state reached every stored
row carries the board width, holds `width` cells and has `num_filled` equal to its number
of non-`EMPTY` cells; so `BoardRow::isFull` is true exactly when all cells of the row are
non-empty, and `Board::isLineFull(y)` is true exactly when row `y` is stored and all its
cells are non-empty. -/
theorem reachable_rows_counted (h w : Int) (hw : 4 ≤ w) (hh : 1 ≤ h) (rnd0 : Rand)
    (inputs : List (Action × Rand)) :
    ∃ flags g, Game.run ((Game.init h w).start rnd0) inputs = some (flags, g) ∧
      (∀ r ∈ g.board.rows,
        r.num_filled = (r.countFilled : Int) ∧ r.width = w ∧ (r.colors.length : Int) = w ∧
        (r.isFull = true ↔ ∀ c ∈ r.colors, c ≠ Color.EMPTY)) ∧
      (∀ y : Int, g.board.isLineFull y = some true ↔
        0 ≤ h - y - 1 ∧ ∃ r, g.board.rows[(h - y - 1).toNat]? = some r ∧
          ∀ c ∈ r.colors, c ≠ Color.EMPTY) := by
  obtain ⟨flags, g, hrun, hh', hw', hwf, hcnt, _⟩ := run_consistent h w hw hh rnd0 inputs
  have hrow : ∀ r ∈ g.board.rows,
      r.num_filled = (r.countFilled : Int) ∧ r.width = w ∧ (r.colors.length : Int) = w ∧
      (r.isFull = true ↔ ∀ c ∈ r.colors, c ≠ Color.EMPTY) := by
    intro r hr
    have h1 := hwf.1 r hr
    rw [hw'] at h1
    exact ⟨hcnt r hr, h1.1, h1.2, isFull_iff_all_filled r w (hcnt r hr) h1.1 h1.2⟩
  refine ⟨flags, g, hrun, hrow, fun y => ?_⟩
  have := isLineFull_iff g.board y (fun r hr => (hrow r hr).2.2.2)
  rw [hh'] at this
  exact this

/-- Instance of C17 on `Game(4,4)`: after the start and six DOWN calls the state is
`lockDone`, whose single row has four cells set and `num_filled = 4`. -/
theorem reachable_rows_counted_witness :
    (4 : Int) ≤ 4 ∧ (1 : Int) ≤ 4 ∧
    Game.run ((Game.init 4 4).start ⟨0, 0, 0⟩) (List.replicate 6 (Action.DOWN, ⟨0, 0, 0⟩))
      = some (List.replicate 6 true, lockDone) ∧
    lockDone.board.isLineFull 3 = some true ∧
    ∃ flags g,
      Game.run ((Game.init 4 4).start ⟨0, 0, 0⟩) (List.replicate 6 (Action.DOWN, ⟨0, 0, 0⟩))
        = some (flags, g) ∧
      ∀ r ∈ g.board.rows, r.num_filled = (r.countFilled : Int) := by
  refine ⟨by decide, by decide, by decide, by decide, ?_⟩
  obtain ⟨flags, g, hrun, hrow, _⟩ :=
    reachable_rows_counted 4 4 (by decide) (by decide) ⟨0, 0, 0⟩
      (List.replicate 6 (Action.DOWN, ⟨0, 0, 0⟩))
  exact ⟨flags, g, hrun, fun r hr => (hrow r hr).1⟩

/-- C18. With the spawn pivot `(width / 2 - 1, -1)` of `Game::newPiece`, the four cells are
inside `[0, width)` for all 7 piece types and 4 orientations exactly when `width >= 4`.
In every case their rows lie in `[-4, -1]`; for `width < 4` (in particular 1, 2, 3) the
horizontal I piece has a cell with `x < 0`. The piece built by `newPiece` takes its cells
from this pivot, a type `rand() % 7` and an orientation `rand() % 4`. -/
theorem spawn_in_bounds_iff (w : Int) :
    ((∀ (t : PieceType) (o : Int), 0 ≤ o → o < 4 →
        ∃ cs, getCoords t o ⟨Int.tdiv w 2 - 1, -1⟩ = some cs ∧
          ∀ c ∈ cs.toList, 0 ≤ c.x ∧ c.x < w) ↔ 4 ≤ w) ∧
    (∀ (t : PieceType) (o : Int) (cs : arr_4),
        getCoords t o ⟨Int.tdiv w 2 - 1, -1⟩ = some cs →
          ∀ c ∈ cs.toList, -4 ≤ c.y ∧ c.y ≤ -1) ∧
    (w < 4 → ∃ cs, getCoords PieceType.SHAPE_I 0 ⟨Int.tdiv w 2 - 1, -1⟩ = some cs ∧
        cs.c0.x < 0) ∧
    (∀ (b : Board) (rnd : Rand), b.getWidth = w →
        (spawnPiece b rnd).getCoords
          = getCoords (PieceType.static_cast (rnd.r_type % 7))
              (Int.tmod (rnd.r_orientation : Int) 4) ⟨Int.tdiv w 2 - 1, -1⟩) := by
  have hI : getCoords PieceType.SHAPE_I 0 ⟨Int.tdiv w 2 - 1, -1⟩
      = some ⟨⟨-1 + (Int.tdiv w 2 - 1), -1 + -1⟩, ⟨0 + (Int.tdiv w 2 - 1), -1 + -1⟩,
          ⟨1 + (Int.tdiv w 2 - 1), -1 + -1⟩, ⟨2 + (Int.tdiv w 2 - 1), -1 + -1⟩⟩ := rfl
  have hcells : ∀ (t : PieceType) (o : Int) (cs : arr_4),
      getCoords t o ⟨Int.tdiv w 2 - 1, -1⟩ = some cs →
        ∀ c ∈ cs.toList, ∃ d : Coord, (-1 ≤ d.x ∧ d.x ≤ 2 ∧ -3 ≤ d.y ∧ d.y ≤ 0) ∧
          c = d.add ⟨Int.tdiv w 2 - 1, -1⟩ := by
    intro t o cs h c hc
    unfold getCoords at h
    cases hm : coord_map_at t o with
    | none => simp [hm] at h
    | some m =>
      simp only [hm, Option.map_some', Option.some.injEq] at h
      subst h
      rw [toList_map] at hc
      obtain ⟨d, hd, rfl⟩ := List.mem_map.mp hc
      exact ⟨d, coord_map_offsets t m (coord_map_at_mem t o m hm) d hd, rfl⟩
  refine ⟨⟨fun h => ?_, fun h t o h0 h4 => ?_⟩, fun t o cs h c hc => ?_, fun h => ?_,
    fun b rnd hb => ?_⟩
  · by_contra hw
    obtain ⟨cs, hcs, hin⟩ := h PieceType.SHAPE_I 0 (by decide) (by decide)
    rw [hI] at hcs
    cases hcs
    have h1 := (hin ⟨-1 + (Int.tdiv w 2 - 1), -1 + -1⟩ (by simp [arr_4.toList])).1
    have h2 := (tdiv_two_bounds w).2 (by omega)
    simp only at h1
    omega
  · obtain ⟨m, hm⟩ := coord_map_at_defined t o h0 h4
    have hg : getCoords t o ⟨Int.tdiv w 2 - 1, -1⟩
        = some (m.map (fun c => c.add ⟨Int.tdiv w 2 - 1, -1⟩)) := by
      simp only [getCoords, hm, Option.map_some']
    refine ⟨_, hg, fun c hc => ?_⟩
    obtain ⟨d, hd, rfl⟩ := hcells t o _ hg c hc
    have := (tdiv_two_bounds w).1 h
    simp only [Coord.add]
    omega
  · obtain ⟨d, hd, rfl⟩ := hcells t o cs h c hc
    simp only [Coord.add]
    omega
  · refine ⟨_, hI, ?_⟩
    have := (tdiv_two_bounds w).2 h
    simp only
    omega
  · subst hb
    rfl

/-- Instance of C18 for the widths 4 and 3. -/
theorem spawn_in_bounds_iff_witness :
    (∃ cs, getCoords PieceType.SHAPE_I 0 ⟨Int.tdiv 4 2 - 1, -1⟩ = some cs ∧
      ∀ c ∈ cs.toList, 0 ≤ c.x ∧ c.x < 4) ∧
    (∃ cs, getCoords PieceType.SHAPE_I 0 ⟨Int.tdiv 3 2 - 1, -1⟩ = some cs ∧ cs.c0.x < 0) :=
  ⟨(spawn_in_bounds_iff 4).1.mpr (by decide) PieceType.SHAPE_I 0 (by decide) (by decide),
   (spawn_in_bounds_iff 3).2.2.1 (by decide)⟩

/-- C20. The four offsets of every shape-table entry are pairwise distinct, for every piece
type and orientation; hence the four cells of a piece are pairwise distinct, so the piece
occupies exactly four cells and `Board::addPiece` writes each board cell at most once. -/
theorem coord_map_cells_distinct (t : PieceType) :
    (∀ o : Int, ∀ m, coord_map_at t o = some m → m.toList.Nodup ∧ m.toList.length = 4) ∧
    (∀ p : Piece, ∀ cs, p.getCoords = some cs → cs.toList.Nodup ∧ cs.toList.length = 4) :=
  ⟨fun o m hm => ⟨coord_map_nodup t m (coord_map_at_mem t o m hm), rfl⟩,
   fun p cs h => ⟨getCoords_nodup p cs h, rfl⟩⟩

/-- Instance of C20 for the S piece in orientation 1 and for an S piece placed at `(4, 7)`. -/
theorem coord_map_cells_distinct_witness :
    coord_map_at PieceType.SHAPE_S 1 = some ⟨⟨0, -2⟩, ⟨0, -1⟩, ⟨1, -1⟩, ⟨1, 0⟩⟩ ∧
    [(⟨0, -2⟩ : Coord), ⟨0, -1⟩, ⟨1, -1⟩, ⟨1, 0⟩].Nodup ∧
    [(⟨4, 5⟩ : Coord), ⟨4, 6⟩, ⟨5, 6⟩, ⟨5, 7⟩].Nodup :=
  ⟨by decide,
   ((coord_map_cells_distinct PieceType.SHAPE_S).1 1 ⟨⟨0, -2⟩, ⟨0, -1⟩, ⟨1, -1⟩, ⟨1, 0⟩⟩
      (by decide)).1,
   ((coord_map_cells_distinct PieceType.SHAPE_S).2
      ⟨⟨4, 7⟩, PieceType.SHAPE_S, 1, Color.BLUE⟩ ⟨⟨4, 5⟩, ⟨4, 6⟩, ⟨5, 6⟩, ⟨5, 7⟩⟩
      (by decide)).1⟩

end Tetris
